import Mathlib

/-!
Verification of the contour-to-skeleton / arc-length-resampling core of
`movement_validation/prefeatures/pre_features.py`.

The numeric code operates on IEEE floating-point arrays.  Every machine
floating-point number is a rational number, so coordinate data, candidate
pairings and cross-distance matrices are modelled with exact rationals
(`ℚ`); the only genuinely irrational quantities produced by the code are
Euclidean distances (square roots), which are modelled exactly with
`Real.sqrt` at the points where a claim speaks about distance values.
Integer index machinery (candidate matches, walking cursors, keep masks)
is modelled with `ℤ`/`ℕ` exactly as numpy holds it.

Functions named as in the source (`chain_code_lengths_cum_sum`,
`h__getPartnersViaWalk`, `h__updateEndsByWalking`, `normalize_parameter`,
`normalize_all_frames`, `compute_skeleton_and_widths`) are direct
transcriptions of the corresponding Python.  Helpers that the repository
imports from modules outside the analysed sources (`config`, `utils`,
`scipy`) are modelled from the specification and marked as such in their
doc comments.
-/

namespace WormParsing

/-- Running cumulative sum of a list starting from accumulator `acc`;
`cumsumFrom 0` models `np.cumsum` (inclusive partial sums, same length). -/
def cumsumFrom {α : Type} [AddCommMonoid α] (acc : α) : List α → List α
  | [] => []
  | x :: xs => (acc + x) :: cumsumFrom (acc + x) xs

/-- Model of `np.cumsum` on a 1-D array. -/
def cumsum {α : Type} [AddCommMonoid α] (l : List α) : List α := cumsumFrom 0 l

/-- Euclidean distance between two rational points.  The source computes
`np.linalg.norm` of coordinate differences; float square roots are modelled
by the exact real square root. -/
noncomputable def pointDist (p q : ℚ × ℚ) : ℝ :=
  Real.sqrt (((p.1 : ℝ) - (q.1 : ℝ)) ^ 2 + ((p.2 : ℝ) - (q.2 : ℝ)) ^ 2)

/-- Transcription of `WormParsing.chain_code_lengths` for a single frame:
the list of consecutive-point Euclidean distances along an ordered point
sequence (`np.linalg.norm(np.diff(skeleton, axis=0), axis=1)`). -/
noncomputable def chain_code_lengths (pts : List (ℚ × ℚ)) : List ℝ :=
  List.zipWith pointDist pts pts.tail

/-- Transcription of `WormParsing.chain_code_lengths_cum_sum` for a single
frame: on a non-empty sequence, `np.cumsum` of `0` prepended to the
consecutive distances; on an empty input (`np.size == 0`) no `0` is
prepended, so the result is empty. -/
noncomputable def chain_code_lengths_cum_sum (pts : List (ℚ × ℚ)) : List ℝ :=
  if pts.isEmpty then cumsum (chain_code_lengths pts)
  else cumsum ((0 : ℝ) :: chain_code_lengths pts)

end WormParsing

/-- Modelled from the spec: `config.N_POINTS_NORMALIZED`, the module-wide
fixed number of resampled points per frame (49 in the reference system).
The `config` module is not among the analysed sources. -/
def N_POINTS_NORMALIZED : ℕ := 49

/-- Model of `np.linspace(a, b, n)`: `n` evenly spaced values from `a`
to `b` inclusive (exact in rational arithmetic). -/
def linspace (a b : ℚ) (n : ℕ) : List ℚ :=
  (List.range n).map (fun i : ℕ => a + (b - a) * (i : ℚ) / ((n : ℚ) - 1))

/-- Interior scan of `np.interp`: `prev` is the last node with position
not exceeding `x`; on reaching the first node position strictly greater
than `x`, linearly interpolate inside the interval, and past the last node
return the last value. -/
def np_interp_go (x : ℚ) (xp fp : ℚ) : List (ℚ × ℚ) → ℚ
  | [] => fp
  | (x1, f1) :: rest =>
    if x < x1 then fp + (f1 - fp) * (x - xp) / (x1 - xp)
    else np_interp_go x x1 f1 rest

/-- Model of `np.interp(x, xp, fp)` on a single query point, with the node
positions and values zipped into one list: values are clamped to `fp[0]`
left of the first node and to `fp[-1]` right of the last node, and
linearly interpolated in between.  An empty node list (which raises in
numpy) returns `0`; no theorem relies on that case. -/
def np_interp (x : ℚ) : List (ℚ × ℚ) → ℚ
  | [] => 0
  | (x0, f0) :: rest => if x ≤ x0 then f0 else np_interp_go x x0 f0 rest

/-- Shape-indexed argument of `WormParsing.normalize_parameter`: the
source function accepts either a 1-D scalar profile or a 2-D x/y curve and
branches on `len(np.shape(prop_to_normalize)) == 2`. -/
inductive NormInput where
  | one (vals : List ℚ)
  | two (xs ys : List ℚ)
deriving DecidableEq

namespace WormParsing

/-- Interpolation core of `WormParsing.normalize_parameter` for one value
row: `np.interp(new_lengths, old_lengths, row)` where `new_lengths` is
`np.linspace(old_lengths[0], old_lengths[-1], N_POINTS_NORMALIZED)`.  The
empty-`old_lengths` case (an `IndexError` in the source) is modelled
totally with default values `0`; no theorem relies on it. -/
def normalize_parameter_row (row old_lengths : List ℚ) : List ℚ :=
  (linspace (old_lengths.headD 0) (old_lengths.getLastD 0) N_POINTS_NORMALIZED).map
    (fun x => np_interp x (old_lengths.zip row))

/-- Transcription of `WormParsing.normalize_parameter`: resample a scalar
profile (1-D) or an x/y curve (2-D, row-wise) at `N_POINTS_NORMALIZED`
positions evenly spaced between the first and last cumulative length
values. -/
def normalize_parameter (prop : NormInput) (old_lengths : List ℚ) : NormInput :=
  match prop with
  | .one vals => .one (normalize_parameter_row vals old_lengths)
  | .two xs ys =>
      .two (normalize_parameter_row xs old_lengths)
           (normalize_parameter_row ys old_lengths)

end WormParsing
namespace SkeletonCalculatorType1

/-- Transcription of the ordering-repair mask built at the end of
`compute_skeleton_and_widths` (the `is_good` array): position `0` and the
last position are always `True`; an interior position `i` is `True` exactly
when `I_2[i] <= I_2[i+1]` and `I_2[i] >= I_2[i-1]`. -/
def orderFilterMask (I_2 : List ℤ) : List Bool :=
  (List.range I_2.length).map (fun i =>
    decide (i = 0 ∨ i = I_2.length - 1 ∨
      (I_2.getD i 0 ≤ I_2.getD (i + 1) 0 ∧ I_2.getD (i - 1) 0 ≤ I_2.getD i 0)))

/-- Boolean-mask indexing `vals[mask]` as numpy performs it on an index
array (the mask and the array have equal lengths in every use). -/
def maskFilter {β : Type} (vals : List β) (mask : List Bool) : List β :=
  ((vals.zip mask).filter (fun vb => vb.2)).map (fun vb => vb.1)

/-- Transcription of the ordering-repair pass of
`compute_skeleton_and_widths` (lines 668-677): `I_1 = I_1[is_good]`,
`I_2 = I_2[is_good]` for the 3-point local mask `is_good`. -/
def orderingRepair (I_1 : List ℕ) (I_2 : List ℤ) : List ℕ × List ℤ :=
  (maskFilter I_1 (orderFilterMask I_2), maskFilter I_2 (orderFilterMask I_2))
end SkeletonCalculatorType1

/-- Arithmetic position sequence `a, a+h, a+2h, ...` of length `n`: the
cumulative arc-length profile of a curve whose points are evenly spaced in
arc length. -/
def arithSeq (a h : ℚ) (n : ℕ) : List ℚ :=
  (List.range n).map (fun i : ℕ => a + h * (i : ℚ))

/-- Model of `np.shape` applied to the per-frame list
`prop_to_normalize` (a Python list of 1-D arrays): an empty list has shape
`(0,)`; a list whose entries all have the same length `k` is assembled by
`np.asarray` into a rectangular `(n, k)` array; a ragged list stays a 1-D
object array of shape `(n,)`. -/
def npShape (rows : List (List ℚ)) : List ℕ :=
  match rows with
  | [] => [0]
  | r :: rest =>
    if rest.all (fun s => s.length = r.length)
    then [rows.length, r.length]
    else [rows.length]

/-- Numpy assignment broadcasting: `src` (the shape of the right-hand
side) can be broadcast onto `target` (the shape of the indexed slice) when
`src` has no more axes and, aligned from the right, every `src` axis
either matches the `target` axis or is `1`. -/
def broadcastTo (src target : List ℕ) : Bool :=
  decide (src.length ≤ target.length) &&
  ((src.reverse.zip target.reverse).all (fun p => decide (p.1 = p.2 ∨ p.1 = 1)))

namespace WormParsing

/-- Transcription of `WormParsing.normalize_all_frames`.  The output array
is allocated with shape `[N_POINTS_NORMALIZED] + np.shape(prop)` filled
with NaN (modelled as `none`); the loop then writes
`norm_data[..., iFrame] = normalize_parameter(value, cc)` for every frame
whose xy data is present, where `cc` is the cumulative chain-code length
of the frame's xy data.  `ccFn` abstracts
`chain_code_lengths_cum_sum` (whose values are irrational square-root
sums); every property proved below holds for an arbitrary length function.
The per-frame assignment succeeds only when the `(N,)`-shaped
interpolation result broadcasts onto the slice `norm_data[..., iFrame]`
(shape `(N_POINTS_NORMALIZED :: np.shape(prop)).dropLast`); otherwise
numpy raises, modelled as `Except.error`.  On the ragged path the output
is the list of per-frame columns of length `N_POINTS_NORMALIZED`; frames
beyond the `zip` range keep their all-NaN columns. -/
def nafFrame (ccFn : List (ℚ × ℚ) → List ℚ) (sliceShape : List ℕ)
    (pc : List ℚ × Option (List (ℚ × ℚ))) : Except Unit (List (Option ℚ)) :=
  match pc.2 with
  | none => Except.ok (List.replicate N_POINTS_NORMALIZED (none : Option ℚ))
  | some c =>
      if broadcastTo [N_POINTS_NORMALIZED] sliceShape then
        Except.ok ((normalize_parameter_row pc.1 (ccFn c)).map some)
      else Except.error ()

/-- Successful per-frame column of `normalize_all_frames`: all-NaN for a
missing frame, the resampled values of the frame otherwise. -/
def nafCol (ccFn : List (ℚ × ℚ) → List ℚ)
    (pc : List ℚ × Option (List (ℚ × ℚ))) : List (Option ℚ) :=
  match pc.2 with
  | none => List.replicate N_POINTS_NORMALIZED (none : Option ℚ)
  | some c => (normalize_parameter_row pc.1 (ccFn c)).map some

def normalize_all_frames (ccFn : List (ℚ × ℚ) → List ℚ)
    (prop_to_normalize : List (List ℚ))
    (xy_data : List (Option (List (ℚ × ℚ)))) :
    Except Unit (List (List (Option ℚ))) := do
  let assigned ← (prop_to_normalize.zip xy_data).mapM
    (nafFrame ccFn ((N_POINTS_NORMALIZED :: npShape prop_to_normalize).dropLast))
  pure (assigned ++ List.replicate
    (prop_to_normalize.length - (prop_to_normalize.zip xy_data).length)
    (List.replicate N_POINTS_NORMALIZED (none : Option ℚ)))

end WormParsing

/-- Numpy integer indexing into an axis of length `n`: indices in
`[0, n)` are used directly, indices in `[-n, 0)` wrap from the end, and
anything else raises `IndexError`. -/
def ixc (n : ℕ) (i : ℤ) : Except Unit ℕ :=
  if 0 ≤ i ∧ i < (n : ℤ) then Except.ok i.toNat
  else if -(n : ℤ) ≤ i ∧ i < 0 then Except.ok (i + n).toNat
  else Except.error ()

/-- Modelled from the spec: `utils.find` (the `utils` module is not among
the analysed sources) is `np.flatnonzero` on a boolean mask: the list of
indices at which the mask is `True`, in increasing order. -/
def findTrue : List Bool → List ℕ
  | [] => []
  | b :: rest => (if b then [0] else []) ++ (findTrue rest).map (fun i => i + 1)

namespace SkeletonCalculatorType1

/-- Configuration of one call of `h__getPartnersViaWalk`: the walk bounds,
the dimensions of the cross-distance matrix `d` (`len(s1) x len(s2)`), the
matrix itself and the two smoothed contour sides. -/
structure WalkCfg where
  s1 : ℤ
  e1 : ℤ
  e2 : ℤ
  n1 : ℕ
  n2 : ℕ
  d : ℕ → ℕ → ℚ
  xy1 : List (ℚ × ℚ)
  xy2 : List (ℚ × ℚ)

/-- Mutable state of the walk loop: the two cursors, the current pair
index `cur_p_I`, and the two 200-slot pair buffers. -/
structure WalkState where
  c1 : ℤ
  c2 : ℤ
  curp : ℤ
  b1 : List ℤ
  b2 : List ℤ
deriving DecidableEq

/-- Bounds-checked read of the cross-distance matrix `d[i, j]` with numpy
negative-index wrapping. -/
def dAt (cfg : WalkCfg) (i j : ℤ) : Except Unit ℚ := do
  let ic ← ixc cfg.n1 i
  let jc ← ixc cfg.n2 j
  pure (cfg.d ic jc)

/-- Bounds-checked read of a contour point `xy[:, i]` with numpy
negative-index wrapping. -/
def xyAt (xs : List (ℚ × ℚ)) (i : ℤ) : Except Unit (ℚ × ℚ) := do
  let ic ← ixc xs.length i
  pure (xs.getD ic (0, 0))

/-- Write into one of the fixed 200-slot pair buffers; an index at or
beyond the buffer length raises `IndexError` (the write index `cur_p_I` is
never negative at a write, since it starts at `-1` and is incremented at
the top of each iteration). -/
def bufWrite (buf : List ℤ) (i : ℤ) (v : ℤ) : Except Unit (List ℤ) :=
  if 0 ≤ i ∧ i < (buf.length : ℤ) then Except.ok (buf.set i.toNat v)
  else Except.error ()

/-- Truthiness of `np.sum((v_n1c1 * v_n2c2) > 0)`: the number of
coordinate components in which the two advance vectors point the same
way. -/
def posCount (v1 v2 : ℚ × ℚ) : ℕ :=
  (if 0 < v1.1 * v2.1 then 1 else 0) + (if 0 < v1.2 * v2.2 then 1 else 0)

/-- Previously accepted width `d[p1_I[cur_p_I-1], p2_I[cur_p_I-1]]`, or
`0` on the second iteration (`cur_p_I == 1`).  On the first iteration
(`cur_p_I == 0`) the buffer read at `-1` wraps to the untouched slot 199,
so the width `d[0, 0]` is used, exactly as the numpy code does. -/
def prevWidth (cfg : WalkCfg) (st : WalkState) (cur : ℤ) : Except Unit ℚ :=
  if cur = 1 then Except.ok 0
  else do
    let ip ← ixc 200 (cur - 1)
    dAt cfg (st.b1.getD ip 0) (st.b2.getD ip 0)

/-- One iteration of the `while` body of `h__getPartnersViaWalk`
(lines 1062-1141): increment `cur_p_I`, pick the direction from
`e1 < s1`, read the three candidate widths, and according to the
tie/width/projection rules record one pair and advance side 1, side 2, or
both. -/
def walkNext1 (cfg : WalkCfg) (st : WalkState) : ℤ :=
  if cfg.e1 < cfg.s1 then st.c1 - 1 else st.c1 + 1

def walkNext2 (cfg : WalkCfg) (st : WalkState) : ℤ :=
  if cfg.e1 < cfg.s1 then st.c2 - 1 else st.c2 + 1

def walkStep (cfg : WalkCfg) (st : WalkState) : Except Unit WalkState := do
  let cur := st.curp + 1
  let next1 := walkNext1 cfg st
  let next2 := walkNext2 cfg st
  let p1n ← xyAt cfg.xy1 next1
  let p1c ← xyAt cfg.xy1 st.c1
  let p2n ← xyAt cfg.xy2 next2
  let p2c ← xyAt cfg.xy2 st.c2
  let v1 : ℚ × ℚ := (p1n.1 - p1c.1, p1n.2 - p1c.2)
  let v2 : ℚ × ℚ := (p2n.1 - p2c.1, p2n.2 - p2c.2)
  let d_n1n2 ← dAt cfg next1 next2
  let d_n1c2 ← dAt cfg next1 st.c2
  let d_n2c1 ← dAt cfg st.c1 next2
  if d_n1c2 = d_n2c1 ∨ (d_n1n2 ≤ d_n1c2 ∧ d_n1n2 ≤ d_n2c1) then
    let b1 ← bufWrite st.b1 cur next1
    let b2 ← bufWrite st.b2 cur next2
    pure ⟨next1, next2, cur, b1, b2⟩
  else if 0 < posCount v1 v2 then
    if d_n1c2 < d_n2c1 then
      let b1 ← bufWrite st.b1 cur next1
      let b2 ← bufWrite st.b2 cur st.c2
      pure ⟨next1, st.c2, cur, b1, b2⟩
    else
      let b1 ← bufWrite st.b1 cur st.c1
      let b2 ← bufWrite st.b2 cur next2
      pure ⟨st.c1, next2, cur, b1, b2⟩
  else
    let prev_width ← prevWidth cfg st cur
    if prev_width < d_n1c2 ∧ prev_width < d_n2c1 then
      let b1 ← bufWrite st.b1 cur next1
      let b2 ← bufWrite st.b2 cur next2
      pure ⟨next1, next2, cur, b1, b2⟩
    else if d_n1c2 < d_n2c1 then
      let b1 ← bufWrite st.b1 cur next1
      let b2 ← bufWrite st.b2 cur st.c2
      pure ⟨next1, st.c2, cur, b1, b2⟩
    else
      let b1 ← bufWrite st.b1 cur st.c1
      let b2 ← bufWrite st.b2 cur next2
      pure ⟨st.c1, next2, cur, b1, b2⟩

/-- Fuel-indexed unfolding of the `while c1 != e1 and c2 != e2` loop.  At
every call site the two walk directions agree, so each iteration strictly
decreases `|e1 - c1| + |e2 - c2|` and the fuel supplied by
`h__getPartnersViaWalk` suffices; running out of fuel (possible only for
direction-inconsistent bounds the program never produces) is modelled as
an error. -/
def walkAux (cfg : WalkCfg) : ℕ → WalkState → Except Unit WalkState
  | 0, _ => Except.error ()
  | fuel + 1, st =>
    if st.c1 ≠ cfg.e1 ∧ st.c2 ≠ cfg.e2 then do
      let st2 ← walkStep cfg st
      walkAux cfg fuel st2
    else pure st

/-- Python trim `a[:cur_p_I]` of a 200-slot buffer: for a non-negative
`cur_p_I` the first `cur_p_I` entries (note this discards the pair written
at index `cur_p_I` itself); when the loop never ran, `cur_p_I = -1` and
`a[:-1]` is everything but the last slot, i.e. 199 zeros. -/
def trimBuf (cur : ℤ) (buf : List ℤ) : List ℤ :=
  if cur < 0 then buf.take (buf.length - 1) else buf.take cur.toNat

/-- Transcription of `SkeletonCalculatorType1.h__getPartnersViaWalk`:
starting from `(s1, s2)`, walk both cursors toward `(e1, e2)` recording
index pairs in two fixed 200-slot buffers, then trim. -/
def h__getPartnersViaWalk (n1 n2 : ℕ) (s1 e1 s2 e2 : ℤ) (d : ℕ → ℕ → ℚ)
    (xy1 xy2 : List (ℚ × ℚ)) : Except Unit (List ℤ × List ℤ) := do
  let cfg : WalkCfg := ⟨s1, e1, e2, n1, n2, d, xy1, xy2⟩
  let fuel := (e1 - s1).natAbs + (e2 - s2).natAbs + 1
  let st ← walkAux cfg fuel ⟨s1, s2, -1, List.replicate 200 0, List.replicate 200 0⟩
  pure (trimBuf st.curp st.b1, trimBuf st.curp st.b2)

/-- Sequential elementwise numpy fancy assignment `m[idxs] = vals`
(later duplicate indices override earlier ones, as numpy does). -/
def applyUpdates : List ℤ → List (ℤ × ℤ) → Except Unit (List ℤ)
  | m, [] => Except.ok m
  | m, iv :: rest => do
      let ic ← ixc m.length iv.1
      applyUpdates (m.set ic iv.2) rest

/-- Sequential numpy fancy assignment `mask[idxs] = True`. -/
def setTrues : List Bool → List ℤ → Except Unit (List Bool)
  | mask, [] => Except.ok mask
  | mask, i :: rest => do
      let ic ← ixc mask.length i
      setTrues (mask.set ic true) rest

/-- Python slice assignment `mask[a:b] = True` (endpoints clamped to the
list, as Python slices are). -/
def setRangeTrue (mask : List Bool) (a b : ℤ) : List Bool :=
  mask.mapIdx (fun i v => if a ≤ (i : ℤ) ∧ (i : ℤ) < b then true else v)

/-- Transcription of `SkeletonCalculatorType1.h__updateEndsByWalking`
(lines 919-987): walk the first `ceil(n1 * END_S1_WALK_PCT)` indices
forward and the corresponding tail backward, overwrite the candidate
matches with the walked pairs, keep the projection matches strictly
between the walked ranges, force both endpoint pairs
(`match_I1[0] = 0`, `match_I1[-1] = n2 - 1`), and return
`(find(keep_mask), match_I1[keep_mask])`. -/
def h__updateEndsByWalking (d : ℕ → ℕ → ℚ) (match_I1 : List ℤ)
    (s1 s2 : List (ℚ × ℚ)) (END_S1_WALK_PCT : ℚ) :
    Except Unit (List ℕ × List ℤ) := do
  let n1 := s1.length
  let n2 := s2.length
  let end_s1_walk_I : ℤ := ((n1 : ℚ) * END_S1_WALK_PCT).ceil
  let end_s2_walk_I : ℤ := 2 * end_s1_walk_I
  let fw ← h__getPartnersViaWalk n1 n2 0 end_s1_walk_I 0 end_s2_walk_I d s1 s2
  let m1 ← applyUpdates match_I1 (fw.1.zip fw.2)
  let mask1 ← setTrues (List.replicate match_I1.length false) fw.1
  let end_s1_walk_backwards : ℤ := (n1 : ℤ) - end_s1_walk_I + 1
  let end_s2_walk_backwards : ℤ := (n2 : ℤ) - end_s2_walk_I + 1
  let bw ← h__getPartnersViaWalk n1 n2 ((n1 : ℤ) - 1) end_s1_walk_backwards
             ((n2 : ℤ) - 1) end_s2_walk_backwards d s1 s2
  let m2 ← applyUpdates m1 (bw.1.zip bw.2)
  let mask2 ← setTrues mask1 bw.1
  let mask3 := setRangeTrue mask2 (end_s1_walk_I + 1) end_s1_walk_backwards
  let mask4 ← setTrues mask3 [0, -1]
  let m3 ← applyUpdates m2 [(0, 0), (-1, (n2 : ℤ) - 1)]
  pure (findTrue mask4, maskFilter m3 mask4)

end SkeletonCalculatorType1
namespace SkeletonCalculatorType1

/-- Widths of the retained matched pairs (line 687): the Euclidean
distance between each retained side-1 point and its side-2 partner; float
square roots are modelled by the exact real square root. -/
noncomputable def pairWidths (a b : List (ℚ × ℚ)) : List ℝ :=
  List.zipWith
    (fun p q => Real.sqrt ((((q.1 - p.1 : ℚ)) : ℝ) ^ 2 + (((q.2 - p.2 : ℚ)) : ℝ) ^ 2))
    a b

/-- Skeleton points of the retained matched pairs (lines 690-691): the
midpoint of each pair. -/
def pairSkeleton (a b : List (ℚ × ℚ)) : List (ℚ × ℚ) :=
  List.zipWith (fun p q => (((p.1 + q.1) / 2 : ℚ), ((p.2 + q.2) / 2 : ℚ))) a b

/-- Final per-frame stage of `compute_skeleton_and_widths`
(lines 662-692): apply the ordering-repair mask to the matched index
pairs, gather the retained points of both sides (`s1[0, I_1]`,
`s2[0, I_2]`, with numpy index semantics on the side-2 indices), and
return the widths and the midpoint skeleton. -/
noncomputable def frameFinalize (s1 s2 : List (ℚ × ℚ)) (I_1 : List ℕ) (I_2 : List ℤ) :
    Except Unit (List ℝ × List (ℚ × ℚ)) := do
  let K := orderingRepair I_1 I_2
  let a := K.1.map (fun i => s1.getD i (0, 0))
  let b ← K.2.mapM (xyAt s2)
  pure (pairWidths a b, pairSkeleton a b)

end SkeletonCalculatorType1
namespace SkeletonCalculatorType1

/-- A contour side's data within one frame: the x and y coordinate rows
(`s[0, :]` and `s[1, :]` of the 2-by-n numpy array holding one side). -/
abbrev Side : Type := List ℚ × List ℚ

/-- Modelled from the spec: `utils.round_to_odd` (the `utils` module is
not among the sources); the spec fixes the smoothing window to the
"nearest odd integer to side-length/12", i.e. `2*round((x-1)/2) + 1`,
written with `Rat.floor`. -/
def round_to_odd (x : ℚ) : ℤ :=
  2 * ((x - 1) / 2 + 1 / 2).floor + 1

/-- Sum of the `k`-th powers of the window abscissae `0, …, w-1`
(entries of the cubic least-squares normal matrix). -/
def powS (w k : ℕ) : ℚ :=
  ((List.range w).map (fun j : ℕ => ((j : ℚ)) ^ k)).sum

/-- Moment `Σ yⱼ · jᵏ` of the window values (right-hand side of the
normal equations). -/
def momT (ys : List ℚ) (k : ℕ) : ℚ :=
  (List.zipWith (fun (y : ℚ) (j : ℕ) => y * ((j : ℚ)) ^ k) ys
    (List.range ys.length)).sum

/-- 3-by-3 determinant, row-major entries. -/
def det3 (a b c d e f g h i : ℚ) : ℚ :=
  a * (e * i - f * h) - b * (d * i - f * g) + c * (d * h - e * g)

/-- 4-by-4 determinant from its four columns, expanded along the first
column. -/
def det4c (c0 c1 c2 c3 : ℚ × ℚ × ℚ × ℚ) : ℚ :=
  c0.1 * det3 c1.2.1 c2.2.1 c3.2.1 c1.2.2.1 c2.2.2.1 c3.2.2.1
    c1.2.2.2 c2.2.2.2 c3.2.2.2
  - c0.2.1 * det3 c1.1 c2.1 c3.1 c1.2.2.1 c2.2.2.1 c3.2.2.1
    c1.2.2.2 c2.2.2.2 c3.2.2.2
  + c0.2.2.1 * det3 c1.1 c2.1 c3.1 c1.2.1 c2.2.1 c3.2.1
    c1.2.2.2 c2.2.2.2 c3.2.2.2
  - c0.2.2.2 * det3 c1.1 c2.1 c3.1 c1.2.1 c2.2.1 c3.2.1
    c1.2.2.1 c2.2.2.1 c3.2.2.1

/-- Least-squares cubic fit to the window values `ys` at abscissae
`0, …, len-1`, evaluated at `t`: the normal equations of the degree-3
fit are solved by Cramer's rule. -/
def polyfitEval (ys : List ℚ) (t : ℚ) : ℚ :=
  let w := ys.length
  let m0 := (powS w 0, powS w 1, powS w 2, powS w 3)
  let m1 := (powS w 1, powS w 2, powS w 3, powS w 4)
  let m2 := (powS w 2, powS w 3, powS w 4, powS w 5)
  let m3 := (powS w 3, powS w 4, powS w 5, powS w 6)
  let v := (momT ys 0, momT ys 1, momT ys 2, momT ys 3)
  let den := det4c m0 m1 m2 m3
  (det4c v m1 m2 m3) / den
    + ((det4c m0 v m2 m3) / den) * t
    + ((det4c m0 m1 v m3) / den) * t ^ 2
    + ((det4c m0 m1 m2 v) / den) * t ^ 3

/-- One output sample of the Savitzky-Golay filter (scipy's default mode,
interp): the first `w/2` samples come from the cubic fit to the first `w`
values, the last `w/2` from the fit to the last `w` values, and every
interior sample from the fit to its centered window evaluated at the
center. -/
def savgolAt (xs : List ℚ) (w i : ℕ) : ℚ :=
  let n := xs.length
  let h := w / 2
  if i < h then polyfitEval (xs.take w) (i : ℚ)
  else if n - h ≤ i then polyfitEval (xs.drop (n - w)) (((i - (n - w) : ℕ) : ℚ))
  else polyfitEval ((xs.drop (i - h)).take w) ((h : ℕ) : ℚ)

/-- Model of `scipy.signal.savgol_filter` at the fixed polynomial order 3
(`SMOOTHING_ORDER`, line 559): raises (`Except.error`) when the order is
not strictly below the window length or the window exceeds the data
length; otherwise smooths every sample by local least-squares cubic
fits. -/
def savgolModel (xs : List ℚ) (w : ℕ) : Except Unit (List ℚ) :=
  if w ≤ 3 ∨ xs.length < w then Except.error ()
  else Except.ok ((List.range xs.length).map (savgolAt xs w))

/-- Transcription of the smoothing prologue of
`compute_skeleton_and_widths` for one side (lines 596-599 resp. 601-603):
the side's x and y rows are replaced by their Savitzky-Golay smoothed
values, with the window `round_to_odd(n * 1/12)`
(`FRACTION_WORM_SMOOTH = 1.0/12.0`, line 558) computed from the side's
point count. -/
def smoothSide (s : Side) : Except Unit Side := do
  let fw := (round_to_odd ((s.1.length : ℚ) * (1 / 12))).toNat
  let x ← savgolModel s.1 fw
  let y ← savgolModel s.2 fw
  pure (x, y)

/-- One iteration of the per-frame loop of `compute_skeleton_and_widths`
(lines 583-604): a frame with absent side1 is skipped (`continue`, line
591), its output slot staying `None` and both caller-side entries
untouched; with side1 present, side1 is smoothed in place, then
`s2.shape` is read — which raises on an absent side2 — then side2 is
smoothed and the rest of the per-frame pipeline (distance matrix,
matching, walking, ordering repair, finalization) runs, abstracted here
as the parameter `rest`. A raised exception is modelled as
`Except.error`: it propagates out of the whole call, so no further
caller-visible result exists. -/
def processFrame {γ : Type} (rest : Side → Side → Except Unit γ)
    (s1q s2q : Option Side) :
    Except Unit (Option γ × Option Side × Option Side) :=
  match s1q with
  | none => Except.ok (none, none, s2q)
  | some s1 => do
      let s1f ← smoothSide s1
      match s2q with
      | none => Except.error ()
      | some s2 => do
          let s2f ← smoothSide s2
          let out ← rest s1f s2f
          Except.ok (some out, some s1f, some s2f)

/-- Transcription of the frame loop of `compute_skeleton_and_widths`
(lines 567-692, scaffold): iterate over
`zip(h_ventral_contour, h_dorsal_contour)` — truncating at the shorter
list, any later ventral frames keeping their preallocated `None` output
slots — and collect the per-frame outputs together with the final
caller-visible per-frame contour entries (the code mutates the caller's
arrays in place; the embedding returns the final entries). -/
def compute_skeleton_and_widths {γ : Type}
    (rest : Side → Side → Except Unit γ) :
    List (Option Side) → List (Option Side) →
    Except Unit (List (Option γ) × List (Option Side) × List (Option Side))
  | [], hd => Except.ok ([], [], hd)
  | v :: hvs, [] => Except.ok ((v :: hvs).map (fun _ => none), v :: hvs, [])
  | v :: hvs, d :: hds => do
      let (o, vf, df) ← processFrame rest v d
      let (os, hvf, hdf) ← compute_skeleton_and_widths rest hvs hds
      Except.ok (o :: os, vf :: hvf, df :: hdf)

end SkeletonCalculatorType1

set_option maxRecDepth 100000

namespace WormParsing

theorem cumsumFrom_length {α : Type} [AddCommMonoid α] (acc : α) (l : List α) :
    (cumsumFrom acc l).length = l.length := by
  induction l generalizing acc with
  | nil => rfl
  | cons x xs ih => simp [cumsumFrom, ih]

theorem cumsumFrom_chain_le (acc : ℝ) (l : List ℝ) (h : ∀ x ∈ l, 0 ≤ x) :
    List.Chain' (· ≤ ·) (cumsumFrom acc l) := by
  induction l generalizing acc with
  | nil => simp [cumsumFrom]
  | cons x xs ih =>
    have hxs : ∀ y ∈ xs, 0 ≤ y := fun y hy => h y (List.mem_cons_of_mem _ hy)
    have hchain := ih (acc + x) hxs
    cases xs with
    | nil => simp [cumsumFrom]
    | cons y ys =>
      refine List.Chain'.cons ?_ hchain
      have hy : 0 ≤ y := h y (by simp)
      simp [cumsumFrom]
      linarith

theorem chain_code_lengths_nonneg (pts : List (ℚ × ℚ)) :
    ∀ x ∈ chain_code_lengths pts, 0 ≤ x := by
  intro x hx
  unfold chain_code_lengths at hx
  rcases List.mem_iff_get.mp hx with ⟨i, hi⟩
  rw [← hi, List.get_zipWith]
  exact Real.sqrt_nonneg _

theorem chain_code_lengths_len (pts : List (ℚ × ℚ)) (h : pts ≠ []) :
    (chain_code_lengths pts).length = pts.length - 1 := by
  unfold chain_code_lengths
  cases pts with
  | nil => simp at h
  | cons p ps => simp [List.length_zipWith]

end WormParsing

namespace SkeletonCalculatorType1

theorem orderFilterMask_length (I_2 : List ℤ) :
    (orderFilterMask I_2).length = I_2.length := by
  simp [orderFilterMask]

theorem orderFilterMask_get (I_2 : List ℤ) (i : ℕ) (hi : i < I_2.length) :
    (orderFilterMask I_2).get? i =
      some (decide (i = 0 ∨ i = I_2.length - 1 ∨
        (I_2.getD i 0 ≤ I_2.getD (i + 1) 0 ∧ I_2.getD (i - 1) 0 ≤ I_2.getD i 0))) := by
  unfold orderFilterMask
  rw [List.get?_map, List.get?_range hi]
  rfl
end SkeletonCalculatorType1

/-- Unfolding lemma for `chain_code_lengths_cum_sum` on a cons cell. -/
theorem chain_code_lengths_cum_sum_cons (p : ℚ × ℚ) (ps : List (ℚ × ℚ)) :
    WormParsing.chain_code_lengths_cum_sum (p :: ps) =
      WormParsing.cumsum ((0 : ℝ) :: WormParsing.chain_code_lengths (p :: ps)) := by
  simp [WormParsing.chain_code_lengths_cum_sum]

/-- C5: for every non-empty ordered point sequence,
`chain_code_lengths_cum_sum` returns a sequence of the same length whose
first element is `0` and which is monotonically non-decreasing; in
particular on the points `(0,0), (1,0), (2,0)` it returns `[0, 1, 2]`. -/
theorem c5_cum_sum_monotone_from_zero (pts : List (ℚ × ℚ)) (h : pts ≠ []) :
    ((WormParsing.chain_code_lengths_cum_sum pts).length = pts.length ∧
     (WormParsing.chain_code_lengths_cum_sum pts).head? = some 0 ∧
     List.Chain' (· ≤ ·) (WormParsing.chain_code_lengths_cum_sum pts)) ∧
    WormParsing.chain_code_lengths_cum_sum [(0, 0), (1, 0), (2, 0)] = [0, 1, 2] := by
  constructor
  · rcases pts with _ | ⟨p, ps⟩
    · exact absurd rfl h
    rw [chain_code_lengths_cum_sum_cons]
    refine ⟨?_, ?_, ?_⟩
    · rw [WormParsing.cumsum, WormParsing.cumsumFrom_length]
      simp [WormParsing.chain_code_lengths, List.length_zipWith]
    · simp [WormParsing.cumsum, WormParsing.cumsumFrom]
    · apply WormParsing.cumsumFrom_chain_le
      intro x hx
      rcases List.mem_cons.mp hx with h0 | hmem
      · simp [h0]
      · exact WormParsing.chain_code_lengths_nonneg _ x hmem
  · have h1 : WormParsing.pointDist (0, 0) (1, 0) = 1 := by
      unfold WormParsing.pointDist
      norm_num
    have h2 : WormParsing.pointDist (1, 0) (2, 0) = 1 := by
      unfold WormParsing.pointDist
      norm_num
    have hl : WormParsing.chain_code_lengths [(0, 0), (1, 0), (2, 0)] =
        [WormParsing.pointDist (0, 0) (1, 0), WormParsing.pointDist (1, 0) (2, 0)] := by
      simp [WormParsing.chain_code_lengths]
    rw [chain_code_lengths_cum_sum_cons, hl, h1, h2]
    simp [WormParsing.cumsum, WormParsing.cumsumFrom]
    norm_num

/-- C5 witness: the theorem applied at the concrete point list
`(0,0), (1,0), (2,0)`. -/
theorem c5_witness :
    ((WormParsing.chain_code_lengths_cum_sum [(0, 0), (1, 0), (2, 0)]).length = 3 ∧
     (WormParsing.chain_code_lengths_cum_sum [(0, 0), (1, 0), (2, 0)]).head? = some 0 ∧
     List.Chain' (· ≤ ·)
       (WormParsing.chain_code_lengths_cum_sum [(0, 0), (1, 0), (2, 0)])) ∧
    WormParsing.chain_code_lengths_cum_sum [(0, 0), (1, 0), (2, 0)] = [0, 1, 2] := by
  have h := c5_cum_sum_monotone_from_zero [(0, 0), (1, 0), (2, 0)] (by simp)
  exact ⟨⟨h.1.1, h.1.2.1, h.1.2.2⟩, h.2⟩

theorem arithSeq_length (a h : ℚ) (n : ℕ) : (arithSeq a h n).length = n := by
  rw [arithSeq, List.length_map, List.length_range]

theorem arithSeq_get? (a h : ℚ) (n i : ℕ) (hi : i < n) :
    (arithSeq a h n).get? i = some (a + h * i) := by
  rw [arithSeq, List.get?_map, List.get?_range hi]
  rfl

theorem arithSeq_get (a h : ℚ) (n : ℕ) (i : Fin (arithSeq a h n).length) :
    (arithSeq a h n).get i = a + h * (i : ℕ) := by
  have hi : (i : ℕ) < n := lt_of_lt_of_eq i.2 (arithSeq_length a h n)
  have h1 := arithSeq_get? a h n i hi
  have h2 : (arithSeq a h n).get? i = some ((arithSeq a h n).get i) := by
    rw [List.get?_eq_get i.2]
  rw [h1] at h2
  exact (Option.some.inj h2).symm

theorem linspace_length (a b : ℚ) (n : ℕ) : (linspace a b n).length = n := by
  rw [linspace, List.length_map, List.length_range]

theorem linspace_get? (a b : ℚ) (n i : ℕ) (hi : i < n) :
    (linspace a b n).get? i = some (a + (b - a) * i / (n - 1)) := by
  rw [linspace, List.get?_map, List.get?_range hi]
  rfl

theorem linspace_arith49 (a h : ℚ) :
    linspace a (a + h * 48) 49 = arithSeq a h 49 := by
  apply List.ext_get?
  intro i
  by_cases hi : i < 49
  · rw [linspace_get? a (a + h * 48) 49 i hi, arithSeq_get? a h 49 i hi]
    congr 1
    have : ((49 : ℕ) : ℚ) - 1 = 48 := by norm_num
    field_simp
    ring
  · have hl1 : (linspace a (a + h * 48) 49).get? i = none := by
      rw [List.get?_eq_none]
      rw [linspace_length]
      omega
    have hl2 : (arithSeq a h 49).get? i = none := by
      rw [List.get?_eq_none]
      rw [arithSeq_length]
      omega
    rw [hl1, hl2]

theorem np_interp_go_self (x f : ℚ) (rest : List (ℚ × ℚ))
    (hhead : ∀ q ∈ rest.head?, x < q.1) :
    np_interp_go x x f rest = f := by
  cases rest with
  | nil => rfl
  | cons q r =>
    have hx : x < q.1 := hhead q rfl
    simp [np_interp_go, hx]

theorem np_interp_go_node (rest : List (ℚ × ℚ)) (prev : ℚ × ℚ)
    (hp : List.Pairwise (fun p q => p.1 < q.1) (prev :: rest))
    (k : ℕ) (hk : k < rest.length) :
    np_interp_go ((rest.get ⟨k, hk⟩).1) prev.1 prev.2 rest = (rest.get ⟨k, hk⟩).2 := by
  induction rest generalizing prev k with
  | nil => exact absurd hk (by simp)
  | cons q r ih =>
    have hpq : prev.1 < q.1 := (List.pairwise_cons.mp hp).1 q (by simp)
    have hptail : List.Pairwise (fun p q => p.1 < q.1) (q :: r) :=
      (List.pairwise_cons.mp hp).2
    cases k with
    | zero =>
      simp only [List.get]
      rw [np_interp_go]
      rw [if_neg (lt_irrefl q.1)]
      apply np_interp_go_self
      intro p hp2
      cases r with
      | nil => simp at hp2
      | cons p2 r2 =>
        simp only [List.head?_cons, Option.mem_def, Option.some.injEq] at hp2
        subst hp2
        exact (List.pairwise_cons.mp hptail).1 p2 (by simp)
    | succ k2 =>
      have hk2 : k2 < r.length := by simpa using hk
      have hqx : q.1 < ((r.get ⟨k2, hk2⟩).1) := by
        have := (List.pairwise_cons.mp hptail).1 (r.get ⟨k2, hk2⟩) (r.get_mem _ _)
        exact this
      simp only [List.get]
      rw [np_interp_go]
      rw [if_neg (not_lt.mpr (le_of_lt hqx))]
      exact ih q hptail k2 hk2

theorem np_interp_node (L : List (ℚ × ℚ))
    (hp : List.Pairwise (fun p q => p.1 < q.1) L)
    (j : ℕ) (hj : j < L.length) :
    np_interp ((L.get ⟨j, hj⟩).1) L = (L.get ⟨j, hj⟩).2 := by
  cases L with
  | nil => exact absurd hj (by simp)
  | cons p0 rest =>
    cases j with
    | zero =>
      simp only [List.get]
      rw [np_interp]
      rw [if_pos (le_refl p0.1)]
    | succ k =>
      have hk : k < rest.length := by simpa using hj
      have h0x : p0.1 < (rest.get ⟨k, hk⟩).1 :=
        (List.pairwise_cons.mp hp).1 (rest.get ⟨k, hk⟩) (rest.get_mem _ _)
      simp only [List.get]
      rw [np_interp]
      rw [if_neg (not_le.mpr h0x)]
      exact np_interp_go_node rest p0 hp k hk

theorem arithSeq_headD (a h : ℚ) : (arithSeq a h 49).headD 0 = a := by
  have : arithSeq a h 49 = (a + h * 0) :: (List.range 48).map (fun i : ℕ => a + h * ((i : ℚ) + 1)) := by
    simp [arithSeq, List.range_succ_eq_map, Function.comp]
    norm_num
  rw [this]
  simp

theorem arithSeq_getLastD (a h : ℚ) : (arithSeq a h 49).getLastD 0 = a + h * 48 := by
  have : arithSeq a h 49 = (List.range 48).map (fun i : ℕ => a + h * (i : ℚ)) ++ [a + h * 48] := by
    have h49 : List.range 49 = List.range 48 ++ [48] := by
      rw [List.range_succ]
    simp [arithSeq, h49]
  rw [this, List.getLastD_concat]

theorem normalize_parameter_row_arith (a h : ℚ) (hh : 0 < h) (row : List ℚ)
    (hrow : row.length = N_POINTS_NORMALIZED) :
    WormParsing.normalize_parameter_row row (arithSeq a h N_POINTS_NORMALIZED) = row := by
  have hN : N_POINTS_NORMALIZED = 49 := rfl
  rw [hN] at hrow ⊢
  unfold WormParsing.normalize_parameter_row
  rw [hN, arithSeq_headD, arithSeq_getLastD, linspace_arith49]
  have hLlen : ((arithSeq a h 49).zip row).length = 49 := by
    rw [List.length_zip, arithSeq_length, hrow]
    exact min_self 49
  have hfst : ∀ (i : Fin ((arithSeq a h 49).zip row).length),
      (((arithSeq a h 49).zip row).get i).1 = a + h * (i : ℕ) := by
    intro i
    rw [List.get_zip]
    exact arithSeq_get a h 49 _
  have hsnd : ∀ (i : Fin ((arithSeq a h 49).zip row).length),
      (((arithSeq a h 49).zip row).get i).2 =
        row.get ⟨i, by have h2 := i.2; omega⟩ := by
    intro i
    rw [List.get_zip]
  have hp : List.Pairwise (fun p q => p.1 < q.1) ((arithSeq a h 49).zip row) := by
    rw [List.pairwise_iff_get]
    intro i j hij
    rw [hfst i, hfst j]
    have hcast : ((i : ℕ) : ℚ) < ((j : ℕ) : ℚ) := by exact_mod_cast hij
    nlinarith
  apply List.ext_get
  · rw [List.length_map, arithSeq_length, hrow]
  · intro i h1 h2
    have hi : i < 49 := by
      rw [List.length_map, arithSeq_length] at h1
      exact h1
    rw [List.get_map]
    have hiL : i < ((arithSeq a h 49).zip row).length := by omega
    have harg : (arithSeq a h 49).get ⟨i, by rw [List.length_map] at h1; exact h1⟩ =
        (((arithSeq a h 49).zip row).get ⟨i, hiL⟩).1 := by
      rw [hfst ⟨i, hiL⟩, arithSeq_get]
    rw [harg, np_interp_node _ hp i hiL]
    rw [hsnd ⟨i, hiL⟩]

/-- C1 counterexample: the ordering-repair pass is only a local 3-point
check, so a candidate pairing whose side2 indices are
`[0, 1, 5, 6, 2, 3, 9]` retains `[0, 1, 5, 3, 9]`, in which the retained
pair with side2 index `5` crosses the later retained pair with side2 index
`3`; the retained side2 sequence is not weakly monotonically
non-decreasing, and the crossing candidate pairs are not dropped. -/
theorem c1_counterexample :
    ¬ List.Chain' (· ≤ ·)
      (SkeletonCalculatorType1.orderingRepair [0, 1, 2, 3, 4, 5, 6]
        [0, 1, 5, 6, 2, 3, 9]).2 := by
  intro hc
  have h : (SkeletonCalculatorType1.orderingRepair [0, 1, 2, 3, 4, 5, 6]
      [0, 1, 5, 6, 2, 3, 9]).2 = [0, 1, 5, 3, 9] := by decide
  rw [h] at hc
  simp [List.chain'_cons] at hc

/-- Value of the ordering-repair mask at an index, via `List.getD`. -/
theorem orderFilterMask_getD (I_2 : List ℤ) (i : ℕ) (hi : i < I_2.length) :
    (SkeletonCalculatorType1.orderFilterMask I_2).getD i false =
      decide (i = 0 ∨ i = I_2.length - 1 ∨
        (I_2.getD i 0 ≤ I_2.getD (i + 1) 0 ∧ I_2.getD (i - 1) 0 ≤ I_2.getD i 0)) := by
  rw [List.getD_eq_getD_get?, SkeletonCalculatorType1.orderFilterMask_get I_2 i hi]
  rfl

/-- C1 amended: the ordering-repair pass always retains both endpoint
pairs, and retains an interior candidate pair exactly when its side2 index
lies weakly between the side2 indices of its immediate neighbours in the
candidate sequence (a 3-point local check); consequently two retained
pairs that were adjacent in the candidate sequence never cross (apart from
the degenerate case in which they are the two forced endpoints of a
2-element candidate list).  Monotonicity across a gap of dropped
candidates is not enforced (see the counterexample). -/
theorem c1_amended_local_ordering (I_2 : List ℤ) (hlen : 2 ≤ I_2.length) :
    (SkeletonCalculatorType1.orderFilterMask I_2).getD 0 false = true ∧
    (SkeletonCalculatorType1.orderFilterMask I_2).getD (I_2.length - 1) false = true ∧
    (∀ i, 0 < i → i + 1 < I_2.length →
      ((SkeletonCalculatorType1.orderFilterMask I_2).getD i false = true ↔
        (I_2.getD (i - 1) 0 ≤ I_2.getD i 0 ∧ I_2.getD i 0 ≤ I_2.getD (i + 1) 0))) ∧
    (∀ i, i + 1 < I_2.length →
      (SkeletonCalculatorType1.orderFilterMask I_2).getD i false = true →
      (SkeletonCalculatorType1.orderFilterMask I_2).getD (i + 1) false = true →
      ¬(i = 0 ∧ i + 1 = I_2.length - 1) →
      I_2.getD i 0 ≤ I_2.getD (i + 1) 0) := by
  have hinterior : ∀ i, 0 < i → i + 1 < I_2.length →
      ((SkeletonCalculatorType1.orderFilterMask I_2).getD i false = true ↔
        (I_2.getD (i - 1) 0 ≤ I_2.getD i 0 ∧ I_2.getD i 0 ≤ I_2.getD (i + 1) 0)) := by
    intro i h0 h1
    rw [orderFilterMask_getD I_2 i (by omega)]
    have hne0 : ¬ (i = 0) := by omega
    have hnel : ¬ (i = I_2.length - 1) := by omega
    simp [hne0, hnel, and_comm]
  refine ⟨?_, ?_, hinterior, ?_⟩
  · rw [orderFilterMask_getD I_2 0 (by omega)]
    simp
  · rw [orderFilterMask_getD I_2 (I_2.length - 1) (by omega)]
    simp
  · intro i hi1 hki hki1 hnotends
    by_cases h0 : i = 0
    · subst h0
      have hint : 0 < 1 ∧ 1 + 1 < I_2.length := by
        constructor
        · omega
        · rcases Nat.lt_or_ge (1 + 1) I_2.length with hlt | hge
          · exact hlt
          · exfalso
            exact hnotends ⟨rfl, by omega⟩
      have := (hinterior 1 hint.1 hint.2).mp hki1
      simpa using this.1
    · have := (hinterior i (by omega) hi1).mp hki
      exact this.2

/-- C1 amended witness: the amended theorem at the concrete candidate
side2 sequence `[0, 2, 1, 5]`. -/
theorem c1_amended_witness :
    (SkeletonCalculatorType1.orderFilterMask [0, 2, 1, 5]).getD 0 false = true ∧
    (SkeletonCalculatorType1.orderFilterMask [0, 2, 1, 5]).getD 3 false = true ∧
    ¬ ((SkeletonCalculatorType1.orderFilterMask [0, 2, 1, 5]).getD 1 false = true) := by
  have h := c1_amended_local_ordering [0, 2, 1, 5] (by norm_num)
  refine ⟨h.1, h.2.1, ?_⟩
  intro hk
  have := (h.2.2.1 1 (by norm_num) (by norm_num)).mp hk
  revert this
  decide

/-- C6: resampling is idempotent at the fixed size `N_POINTS_NORMALIZED`:
a curve (or scalar profile) that already has `N` points whose cumulative
arc-length positions are evenly spaced (`a, a+h, a+2h, ...` with `h > 0`)
is returned unchanged by `normalize_parameter`, which linearly
interpolates at `N` evenly spaced positions between the first and last
cumulative length values. -/
theorem c6_resample_idempotent (a h : ℚ) (hh : 0 < h) (xs ys vs : List ℚ)
    (hx : xs.length = N_POINTS_NORMALIZED) (hy : ys.length = N_POINTS_NORMALIZED)
    (hv : vs.length = N_POINTS_NORMALIZED) :
    WormParsing.normalize_parameter (.two xs ys) (arithSeq a h N_POINTS_NORMALIZED) =
      .two xs ys ∧
    WormParsing.normalize_parameter (.one vs) (arithSeq a h N_POINTS_NORMALIZED) =
      .one vs := by
  simp only [WormParsing.normalize_parameter]
  rw [normalize_parameter_row_arith a h hh xs hx,
      normalize_parameter_row_arith a h hh ys hy,
      normalize_parameter_row_arith a h hh vs hv]
  exact ⟨rfl, rfl⟩

/-- C6 witness: the theorem applied to a concrete 49-point curve evenly
spaced in arc length (positions `0, 1, ..., 48`). -/
theorem c6_witness :
    (0 : ℚ) < 1 ∧
    (WormParsing.normalize_parameter
        (.two (List.replicate 49 (3 : ℚ)) (List.replicate 49 (7 : ℚ)))
        (arithSeq 0 1 N_POINTS_NORMALIZED) =
      .two (List.replicate 49 (3 : ℚ)) (List.replicate 49 (7 : ℚ))) := by
  refine ⟨by norm_num, ?_⟩
  exact (c6_resample_idempotent 0 1 (by norm_num)
    (List.replicate 49 (3 : ℚ)) (List.replicate 49 (7 : ℚ)) (List.replicate 49 (0 : ℚ))
    (by simp [N_POINTS_NORMALIZED]) (by simp [N_POINTS_NORMALIZED])
    (by simp [N_POINTS_NORMALIZED])).1

namespace WormParsing

theorem normalize_parameter_row_length (row old_lengths : List ℚ) :
    (normalize_parameter_row row old_lengths).length = N_POINTS_NORMALIZED := by
  rw [normalize_parameter_row, List.length_map, linspace_length]
end WormParsing

/-- Helper: a `mapM` over `Except` in which every element succeeds is the
`map` of the per-element results. -/
theorem mapM_ok_of_forall {ε α β : Type} (f : α → Except ε β) (g : α → β)
    (l : List α) (h : ∀ x ∈ l, f x = Except.ok (g x)) :
    l.mapM f = Except.ok (l.map g) := by
  induction l with
  | nil => rfl
  | cons x xs ih =>
    rw [List.mapM_cons, h x (by simp), ih (fun y hy => h y (List.mem_cons_of_mem _ hy))]
    rfl

/-- C4 counterexample: a batch of two fully valid present frames whose
property rows have equal length (here `[1, 2]` and `[3, 4]`) is assembled
by `np.shape` into a rectangular `(2, 2)` shape, so `norm_data` is
allocated with the 3-D shape `(49, 2, 2)` and the first per-frame
assignment `norm_data[..., 0] = <(49,)-vector>` fails to broadcast
(`(49,)` onto `(49, 2)`): the call raises instead of returning a
rectangular `49 x n` array.  The claim is false for such uniform
all-present batches. -/
theorem c4_counterexample :
    WormParsing.normalize_all_frames
      (fun c => (List.range c.length).map (fun i : ℕ => (i : ℚ)))
      [[1, 2], [3, 4]]
      [some [(0, 0), (1, 0)], some [(0, 1), (1, 1)]] = Except.error () := rfl

/-- C4 amended: for every batch whose per-frame property list is ragged
(`np.shape` yields `(n,)`, as holds whenever some frame is missing or the
frame lengths are not all equal — the heterocardinal case the function is
written for), `normalize_all_frames` returns, with no error, one column
per frame, each of length exactly `N_POINTS_NORMALIZED`; a frame with
missing xy input yields the all-NaN column, and the column of every other
frame is determined by that frame's own data alone.  (On uniform
all-present batches the underlying numpy code raises instead — see the
counterexample.) -/
theorem c4_amended_ragged_batches (ccFn : List (ℚ × ℚ) → List ℚ)
    (prop : List (List ℚ)) (xy : List (Option (List (ℚ × ℚ))))
    (hlen : prop.length = xy.length)
    (hragged : npShape prop = [prop.length])
    (hpres : ∀ c : List (ℚ × ℚ), some c ∈ xy → c ≠ []) :
    ∃ out, WormParsing.normalize_all_frames ccFn prop xy = Except.ok out ∧
      out.length = prop.length ∧
      (∀ col ∈ out, col.length = N_POINTS_NORMALIZED) ∧
      (∀ i, i < prop.length → xy.getD i none = none →
        out.getD i [] = List.replicate N_POINTS_NORMALIZED none) ∧
      (∀ i c, i < prop.length → xy.getD i none = some c →
        out.getD i [] =
          (WormParsing.normalize_parameter_row (prop.getD i []) (ccFn c)).map some) := by
  have hzlen : (prop.zip xy).length = prop.length := by
    rw [List.length_zip, hlen, min_self]
  have hframe : ∀ pc ∈ prop.zip xy,
      WormParsing.nafFrame ccFn ((N_POINTS_NORMALIZED :: npShape prop).dropLast) pc =
        Except.ok (WormParsing.nafCol ccFn pc) := by
    intro pc _
    rcases pc with ⟨p, oc⟩
    cases oc with
    | none => rfl
    | some c =>
      rw [WormParsing.nafFrame, WormParsing.nafCol, hragged]
      rfl
  have hmapM := mapM_ok_of_forall _ (WormParsing.nafCol ccFn) (prop.zip xy) hframe
  refine ⟨(prop.zip xy).map (WormParsing.nafCol ccFn), ?_, ?_, ?_, ?_, ?_⟩
  · rw [WormParsing.normalize_all_frames]
    rw [hmapM]
    show Except.ok _ = _
    rw [hzlen, Nat.sub_self, List.replicate_zero, List.append_nil]
  · rw [List.length_map, hzlen]
  · intro col hcol
    rcases List.mem_map.mp hcol with ⟨pc, _, hpc⟩
    rw [← hpc]
    rcases pc with ⟨p, oc⟩
    cases oc with
    | none => simp [WormParsing.nafCol]
    | some c =>
      rw [WormParsing.nafCol]
      rw [List.length_map, WormParsing.normalize_parameter_row_length]
  · intro i hi hnone
    have hiz : i < (prop.zip xy).length := by rw [hzlen]; exact hi
    rcases List.get?_eq_some.mpr ⟨hiz, rfl⟩ with hz
    have hz2 := (List.get?_zip_eq_some prop xy ((prop.zip xy).get ⟨i, hiz⟩) i).mp hz
    have hxyv : xy.getD i none = ((prop.zip xy).get ⟨i, hiz⟩).2 := by
      rw [List.getD_eq_getD_get?, hz2.2]
      rfl
    have hcolval : ((prop.zip xy).get ⟨i, hiz⟩).2 = none := by
      rw [← hxyv]
      exact hnone
    rw [List.getD_eq_getD_get?, List.get?_map, hz]
    show (((WormParsing.nafCol ccFn ((prop.zip xy).get ⟨i, hiz⟩)) : List (Option ℚ))) = _
    rcases hpc : (prop.zip xy).get ⟨i, hiz⟩ with ⟨p, oc⟩
    rw [hpc] at hcolval
    simp only at hcolval
    rw [WormParsing.nafCol, hcolval]
  · intro i c hi hsome
    have hiz : i < (prop.zip xy).length := by rw [hzlen]; exact hi
    rcases List.get?_eq_some.mpr ⟨hiz, rfl⟩ with hz
    have hz2 := (List.get?_zip_eq_some prop xy ((prop.zip xy).get ⟨i, hiz⟩) i).mp hz
    have hxyv : xy.getD i none = ((prop.zip xy).get ⟨i, hiz⟩).2 := by
      rw [List.getD_eq_getD_get?, hz2.2]
      rfl
    have hpv : prop.getD i [] = ((prop.zip xy).get ⟨i, hiz⟩).1 := by
      rw [List.getD_eq_getD_get?, hz2.1]
      rfl
    rw [List.getD_eq_getD_get?, List.get?_map, hz]
    show WormParsing.nafCol ccFn ((prop.zip xy).get ⟨i, hiz⟩) = _
    rcases hpc : (prop.zip xy).get ⟨i, hiz⟩ with ⟨p, oc⟩
    rw [hpc] at hxyv hpv
    rw [hsome] at hxyv
    rw [WormParsing.nafCol]
    simp only at hxyv hpv ⊢
    rw [← hxyv]
    rw [hpv]

/-- C4 witness: the amended theorem applied to a concrete ragged batch of
three frames in which frame 1 is missing. -/
theorem c4_witness :
    ∃ out, WormParsing.normalize_all_frames
        (fun c => (List.range c.length).map (fun i : ℕ => (i : ℚ)))
        [[1, 2], [], [5, 6, 7]]
        [some [(0, 0), (1, 0)], none, some [(0, 0), (1, 0), (2, 0)]] =
          Except.ok out ∧
      out.length = 3 ∧
      (∀ col ∈ out, col.length = N_POINTS_NORMALIZED) ∧
      (∀ i, i < 3 →
        ([some [((0 : ℚ), (0 : ℚ)), (1, 0)], none,
          some [(0, 0), (1, 0), (2, 0)]].getD i none = none) →
        out.getD i [] = List.replicate N_POINTS_NORMALIZED none) := by
  have h := c4_amended_ragged_batches
    (fun c => (List.range c.length).map (fun i : ℕ => (i : ℚ)))
    [[1, 2], [], [5, 6, 7]]
    [some [(0, 0), (1, 0)], none, some [(0, 0), (1, 0), (2, 0)]]
    (by rfl) (by rfl)
    (by
      intro c hc
      simp only [List.mem_cons, List.mem_singleton] at hc
      rcases hc with h1 | h2 | h3
      · cases h1
        simp
      · cases h2
      · rcases h3 with h3 | h3
        · cases h3
          simp
        · cases h3)
  rcases h with ⟨out, h1, h2, h3, h4, _⟩
  exact ⟨out, h1, h2, h3, h4⟩

/-- C10: evaluation of the endpoint-walking update at the failing input.
With both contour sides of length 1334 the forward walk extent is
`ceil(1334 * 0.15) = 201` on side 1 and `402` on side 2, so with a
constant cross-distance matrix (every step advances both cursors) the walk
records 201 pairs; the write of the 201st pair targets index 200 of the
two fixed `np.zeros(200)` buffers and raises `IndexError`.  The claim that
every write index stays below 200 for all side lengths is false; the
source itself carries the comment `TODO: remove hardcode`. -/
theorem c10_buffer_overflow_at_large_input :
    SkeletonCalculatorType1.h__updateEndsByWalking (fun _ _ => 5)
      (List.replicate 1334 0)
      (List.replicate 1334 ((0 : ℚ), 0)) (List.replicate 1334 ((0 : ℚ), 0))
      (15 / 100) = Except.error () := by with_unfolding_all rfl

/-- Helper: destructure a successful `Except` bind. -/
theorem bind_eq_ok {ε α β : Type} {x : Except ε α} {f : α → Except ε β} {b : β}
    (h : x >>= f = Except.ok b) : ∃ a, x = Except.ok a ∧ f a = Except.ok b := by
  cases x with
  | error e =>
    exact absurd h (by simp [Bind.bind, Except.bind])
  | ok a => exact ⟨a, rfl, h⟩

/-- C8: one successful step of the endpoint-walking procedure (a) advances
both side cursors simultaneously whenever advancing side 1 only and
advancing side 2 only would give equal widths (the stored distance from
`next1` to `c2` equals the one from `c1` to `next2`); (b) always advances
exactly one of the two cursors or both, each by one position in the walk
direction, incrementing the pair index; and (c) whenever the walk bounds
are direction-consistent and the cursors lie strictly before their ends
(as at every reachable step of the calls made by
`h__updateEndsByWalking`), each advanced cursor moves strictly closer to
its end. -/
theorem c8_walk_step_tie_and_progress (cfg : SkeletonCalculatorType1.WalkCfg)
    (st stp : SkeletonCalculatorType1.WalkState)
    (hok : SkeletonCalculatorType1.walkStep cfg st = Except.ok stp) :
    (∀ q : ℚ,
      SkeletonCalculatorType1.dAt cfg (SkeletonCalculatorType1.walkNext1 cfg st) st.c2 =
        Except.ok q →
      SkeletonCalculatorType1.dAt cfg st.c1 (SkeletonCalculatorType1.walkNext2 cfg st) =
        Except.ok q →
      stp.c1 = SkeletonCalculatorType1.walkNext1 cfg st ∧
      stp.c2 = SkeletonCalculatorType1.walkNext2 cfg st) ∧
    ((stp.c1 = SkeletonCalculatorType1.walkNext1 cfg st ∧ stp.c2 = st.c2) ∨
     (stp.c1 = st.c1 ∧ stp.c2 = SkeletonCalculatorType1.walkNext2 cfg st) ∨
     (stp.c1 = SkeletonCalculatorType1.walkNext1 cfg st ∧
      stp.c2 = SkeletonCalculatorType1.walkNext2 cfg st)) ∧
    stp.curp = st.curp + 1 ∧
    (((¬ cfg.e1 < cfg.s1 ∧ st.c1 < cfg.e1 ∧ st.c2 < cfg.e2) ∨
      (cfg.e1 < cfg.s1 ∧ cfg.e1 < st.c1 ∧ cfg.e2 < st.c2)) →
     ((stp.c1 ≠ st.c1 → (cfg.e1 - stp.c1).natAbs < (cfg.e1 - st.c1).natAbs) ∧
      (stp.c2 ≠ st.c2 → (cfg.e2 - stp.c2).natAbs < (cfg.e2 - st.c2).natAbs))) := by
  rw [SkeletonCalculatorType1.walkStep] at hok
  rcases bind_eq_ok hok with ⟨p1n, hp1n, hok⟩
  rcases bind_eq_ok hok with ⟨p1c, hp1c, hok⟩
  rcases bind_eq_ok hok with ⟨p2n, hp2n, hok⟩
  rcases bind_eq_ok hok with ⟨p2c, hp2c, hok⟩
  rcases bind_eq_ok hok with ⟨dn1n2, hdn1n2, hok⟩
  rcases bind_eq_ok hok with ⟨dn1c2, hdn1c2, hok⟩
  rcases bind_eq_ok hok with ⟨dn2c1, hdn2c1, hok⟩
  have main :
      (stp.c1 = SkeletonCalculatorType1.walkNext1 cfg st ∧ stp.c2 = st.c2 ∧
        stp.curp = st.curp + 1) ∨
      (stp.c1 = st.c1 ∧ stp.c2 = SkeletonCalculatorType1.walkNext2 cfg st ∧
        stp.curp = st.curp + 1) ∨
      (stp.c1 = SkeletonCalculatorType1.walkNext1 cfg st ∧
        stp.c2 = SkeletonCalculatorType1.walkNext2 cfg st ∧
        stp.curp = st.curp + 1) := by
    clear hp1n hp1c hp2n hp2c hdn1n2 hdn1c2 hdn2c1
    split at hok
    · rcases bind_eq_ok hok with ⟨b1, _, hok⟩
      rcases bind_eq_ok hok with ⟨b2, _, hok⟩
      cases hok
      right; right
      exact ⟨rfl, rfl, rfl⟩
    · split at hok
      · split at hok
        · rcases bind_eq_ok hok with ⟨b1, _, hok⟩
          rcases bind_eq_ok hok with ⟨b2, _, hok⟩
          cases hok
          left
          exact ⟨rfl, rfl, rfl⟩
        · rcases bind_eq_ok hok with ⟨b1, _, hok⟩
          rcases bind_eq_ok hok with ⟨b2, _, hok⟩
          cases hok
          right; left
          exact ⟨rfl, rfl, rfl⟩
      · rcases bind_eq_ok hok with ⟨pw, hpw, hok⟩
        split at hok
        · rcases bind_eq_ok hok with ⟨b1, _, hok⟩
          rcases bind_eq_ok hok with ⟨b2, _, hok⟩
          cases hok
          right; right
          exact ⟨rfl, rfl, rfl⟩
        · split at hok
          · rcases bind_eq_ok hok with ⟨b1, _, hok⟩
            rcases bind_eq_ok hok with ⟨b2, _, hok⟩
            cases hok
            left
            exact ⟨rfl, rfl, rfl⟩
          · rcases bind_eq_ok hok with ⟨b1, _, hok⟩
            rcases bind_eq_ok hok with ⟨b2, _, hok⟩
            cases hok
            right; left
            exact ⟨rfl, rfl, rfl⟩
  have htie : ∀ q : ℚ,
      SkeletonCalculatorType1.dAt cfg (SkeletonCalculatorType1.walkNext1 cfg st) st.c2 =
        Except.ok q →
      SkeletonCalculatorType1.dAt cfg st.c1 (SkeletonCalculatorType1.walkNext2 cfg st) =
        Except.ok q →
      stp.c1 = SkeletonCalculatorType1.walkNext1 cfg st ∧
      stp.c2 = SkeletonCalculatorType1.walkNext2 cfg st := by
    intro q hq1 hq2
    rw [hdn1c2] at hq1
    rw [hdn2c1] at hq2
    have heq : dn1c2 = dn2c1 := by
      rw [Except.ok.injEq] at hq1 hq2
      rw [hq1, hq2]
    rw [if_pos (Or.inl heq)] at hok
    rcases bind_eq_ok hok with ⟨b1, _, hok⟩
    rcases bind_eq_ok hok with ⟨b2, _, hok⟩
    cases hok
    exact ⟨rfl, rfl⟩
  refine ⟨htie, ?_, ?_, ?_⟩
  · rcases main with ⟨h1, h2, _⟩ | ⟨h1, h2, _⟩ | ⟨h1, h2, _⟩
    · exact Or.inl ⟨h1, h2⟩
    · exact Or.inr (Or.inl ⟨h1, h2⟩)
    · exact Or.inr (Or.inr ⟨h1, h2⟩)
  · rcases main with ⟨_, _, h3⟩ | ⟨_, _, h3⟩ | ⟨_, _, h3⟩ <;> exact h3
  · intro hdir
    have hc1 : stp.c1 = SkeletonCalculatorType1.walkNext1 cfg st ∨ stp.c1 = st.c1 := by
      rcases main with ⟨h1, _, _⟩ | ⟨h1, _, _⟩ | ⟨h1, _, _⟩
      · exact Or.inl h1
      · exact Or.inr h1
      · exact Or.inl h1
    have hc2 : stp.c2 = SkeletonCalculatorType1.walkNext2 cfg st ∨ stp.c2 = st.c2 := by
      rcases main with ⟨_, h2, _⟩ | ⟨_, h2, _⟩ | ⟨_, h2, _⟩
      · exact Or.inr h2
      · exact Or.inl h2
      · exact Or.inl h2
    constructor
    · intro hne
      have h1 : stp.c1 = SkeletonCalculatorType1.walkNext1 cfg st := by
        rcases hc1 with h | h
        · exact h
        · exact absurd h hne
      rw [h1]
      rw [SkeletonCalculatorType1.walkNext1]
      rcases hdir with ⟨hd, hlt1, _⟩ | ⟨hd, hlt1, _⟩
      · rw [if_neg hd]
        omega
      · rw [if_pos hd]
        omega
    · intro hne
      have h2 : stp.c2 = SkeletonCalculatorType1.walkNext2 cfg st := by
        rcases hc2 with h | h
        · exact h
        · exact absurd h hne
      rw [h2]
      rw [SkeletonCalculatorType1.walkNext2]
      rcases hdir with ⟨hd, _, hlt2⟩ | ⟨hd, _, hlt2⟩
      · rw [if_neg hd]
        omega
      · rw [if_pos hd]
        omega

/-- C8 witness: the step theorem applied at a concrete configuration with
a constant distance matrix, where the tie rule fires and both cursors
advance. -/
theorem c8_witness :
    SkeletonCalculatorType1.walkStep
      ⟨0, 3, 6, 10, 10, fun _ _ => 1,
        List.replicate 10 ((0 : ℚ), 0), List.replicate 10 ((0 : ℚ), 0)⟩
      ⟨0, 0, -1, List.replicate 200 0, List.replicate 200 0⟩ =
      Except.ok ⟨1, 1, 0, (List.replicate 200 0).set 0 1,
                 (List.replicate 200 0).set 0 1⟩ ∧
    (1 : ℤ) = SkeletonCalculatorType1.walkNext1
      ⟨0, 3, 6, 10, 10, fun _ _ => 1,
        List.replicate 10 ((0 : ℚ), 0), List.replicate 10 ((0 : ℚ), 0)⟩
      ⟨0, 0, -1, List.replicate 200 0, List.replicate 200 0⟩ ∧
    (1 : ℤ) = SkeletonCalculatorType1.walkNext2
      ⟨0, 3, 6, 10, 10, fun _ _ => 1,
        List.replicate 10 ((0 : ℚ), 0), List.replicate 10 ((0 : ℚ), 0)⟩
      ⟨0, 0, -1, List.replicate 200 0, List.replicate 200 0⟩ := by
  have hok : SkeletonCalculatorType1.walkStep
      ⟨0, 3, 6, 10, 10, fun _ _ => 1,
        List.replicate 10 ((0 : ℚ), 0), List.replicate 10 ((0 : ℚ), 0)⟩
      ⟨0, 0, -1, List.replicate 200 0, List.replicate 200 0⟩ =
      Except.ok ⟨1, 1, 0, (List.replicate 200 0).set 0 1,
                 (List.replicate 200 0).set 0 1⟩ := by
    with_unfolding_all rfl
  have h := c8_walk_step_tie_and_progress _ _ _ hok
  have hd1 : SkeletonCalculatorType1.dAt
      ⟨0, 3, 6, 10, 10, fun _ _ => 1,
        List.replicate 10 ((0 : ℚ), 0), List.replicate 10 ((0 : ℚ), 0)⟩
      (SkeletonCalculatorType1.walkNext1
        ⟨0, 3, 6, 10, 10, fun _ _ => 1,
          List.replicate 10 ((0 : ℚ), 0), List.replicate 10 ((0 : ℚ), 0)⟩
        ⟨0, 0, -1, List.replicate 200 0, List.replicate 200 0⟩) 0 =
      Except.ok 1 := by with_unfolding_all rfl
  have hd2 : SkeletonCalculatorType1.dAt
      ⟨0, 3, 6, 10, 10, fun _ _ => 1,
        List.replicate 10 ((0 : ℚ), 0), List.replicate 10 ((0 : ℚ), 0)⟩ 0
      (SkeletonCalculatorType1.walkNext2
        ⟨0, 3, 6, 10, 10, fun _ _ => 1,
          List.replicate 10 ((0 : ℚ), 0), List.replicate 10 ((0 : ℚ), 0)⟩
        ⟨0, 0, -1, List.replicate 200 0, List.replicate 200 0⟩) =
      Except.ok 1 := by with_unfolding_all rfl
  have htie := h.1 1 hd1 hd2
  exact ⟨hok, htie.1.symm, htie.2.symm⟩

theorem except_ok_bind {ε α β : Type} (a : α) (f : α → Except ε β) :
    (Except.ok a >>= f) = f a := rfl

theorem applyUpdates_length (ups : List (ℤ × ℤ)) (m m2 : List ℤ)
    (h : SkeletonCalculatorType1.applyUpdates m ups = Except.ok m2) :
    m2.length = m.length := by
  induction ups generalizing m with
  | nil =>
    rw [SkeletonCalculatorType1.applyUpdates] at h
    cases h
    rfl
  | cons iv rest ih =>
    rw [SkeletonCalculatorType1.applyUpdates] at h
    rcases bind_eq_ok h with ⟨ic, _, h2⟩
    have := ih (m.set ic iv.2) h2
    rwa [List.length_set] at this

theorem setTrues_length (ups : List ℤ) (m m2 : List Bool)
    (h : SkeletonCalculatorType1.setTrues m ups = Except.ok m2) :
    m2.length = m.length := by
  induction ups generalizing m with
  | nil =>
    rw [SkeletonCalculatorType1.setTrues] at h
    cases h
    rfl
  | cons i rest ih =>
    rw [SkeletonCalculatorType1.setTrues] at h
    rcases bind_eq_ok h with ⟨ic, _, h2⟩
    have := ih (m.set ic true) h2
    rwa [List.length_set] at this

theorem setRangeTrue_length (m : List Bool) (a b : ℤ) :
    (SkeletonCalculatorType1.setRangeTrue m a b).length = m.length := by
  rw [SkeletonCalculatorType1.setRangeTrue, List.length_mapIdx]

theorem ixc_zero (n : ℕ) (h : 0 < n) : ixc n 0 = Except.ok 0 := by
  have hc : (0 : ℤ) ≤ 0 ∧ (0 : ℤ) < (n : ℤ) := ⟨le_refl 0, by exact_mod_cast h⟩
  rw [ixc, if_pos hc]
  rfl

theorem ixc_neg_one (n : ℕ) (h : 0 < n) : ixc n (-1) = Except.ok (n - 1) := by
  have hc1 : ¬ ((0 : ℤ) ≤ -1 ∧ (-1 : ℤ) < (n : ℤ)) := by omega
  have hc2 : -(n : ℤ) ≤ -1 ∧ (-1 : ℤ) < 0 := by omega
  rw [ixc, if_neg hc1, if_pos hc2]
  congr 1
  omega

theorem applyUpdates_zero_neg_one (m : List ℤ) (v1 v2 : ℤ) (h : 0 < m.length) :
    SkeletonCalculatorType1.applyUpdates m [(0, v1), (-1, v2)] =
      Except.ok ((m.set 0 v1).set (m.length - 1) v2) := by
  rw [SkeletonCalculatorType1.applyUpdates]
  rw [show ((0 : ℤ), v1).1 = (0 : ℤ) from rfl]
  rw [ixc_zero m.length h, except_ok_bind]
  rw [SkeletonCalculatorType1.applyUpdates]
  rw [show ((-1 : ℤ), v2).1 = (-1 : ℤ) from rfl]
  have hl : ((m.set 0 v1).length) = m.length := List.length_set m 0 v1
  rw [hl, ixc_neg_one m.length h, except_ok_bind]
  rw [SkeletonCalculatorType1.applyUpdates]

theorem setTrues_zero_neg_one (m : List Bool) (h : 0 < m.length) :
    SkeletonCalculatorType1.setTrues m [0, -1] =
      Except.ok ((m.set 0 true).set (m.length - 1) true) := by
  rw [SkeletonCalculatorType1.setTrues]
  rw [ixc_zero m.length h, except_ok_bind]
  rw [SkeletonCalculatorType1.setTrues]
  have hl : ((m.set 0 true).length) = m.length := List.length_set m 0 true
  rw [hl, ixc_neg_one m.length h, except_ok_bind]
  rw [SkeletonCalculatorType1.setTrues]

theorem getD_set_self {α : Type} (l : List α) (i : ℕ) (v d : α) (h : i < l.length) :
    (l.set i v).getD i d = v := by
  rw [List.getD_eq_getD_get?, List.get?_set_eq_of_lt v h]
  rfl

theorem getD_set_ne {α : Type} (l : List α) (i j : ℕ) (v d : α) (h : i ≠ j) :
    (l.set i v).getD j d = l.getD j d := by
  rw [List.getD_eq_getD_get?, List.get?_set_ne v l h, ← List.getD_eq_getD_get?]

theorem findTrue_nil : findTrue [] = [] := rfl

theorem findTrue_cons (b : Bool) (rest : List Bool) :
    findTrue (b :: rest) =
      (if b then [0] else []) ++ (findTrue rest).map (fun i => i + 1) := rfl

theorem findTrue_head (mask : List Bool) (h0 : mask.getD 0 false = true) :
    (findTrue mask).head? = some 0 := by
  cases mask with
  | nil => simp at h0
  | cons b rest =>
    have hb : b = true := h0
    rw [findTrue_cons, hb]
    simp

theorem findTrue_getLast (mask : List Bool)
    (hne : mask ≠ [])
    (hl : mask.getD (mask.length - 1) false = true) :
    (findTrue mask).getLast? = some (mask.length - 1) := by
  induction mask with
  | nil => exact absurd rfl hne
  | cons b rest ih =>
    cases rest with
    | nil =>
      have hb : b = true := hl
      rw [findTrue_cons, hb]
      rfl
    | cons b2 rest2 =>
      have hlen : (b :: b2 :: rest2).length - 1 = (b2 :: rest2).length := by
        simp
      have hl2 : (b2 :: rest2).getD ((b2 :: rest2).length - 1) false = true := by
        rw [hlen] at hl
        have : (b2 :: rest2).length = rest2.length + 1 := by simp
        rw [this] at hl
        rw [this]
        simpa using hl
      have hih := ih (by simp) hl2
      rw [findTrue_cons]
      have hne2 : findTrue (b2 :: rest2) ≠ [] := by
        intro hcon
        rw [hcon] at hih
        simp at hih
      rw [List.getLast?_append_of_ne_nil _ (by
        intro hcon
        rcases List.map_eq_nil.mp hcon with h2
        exact hne2 h2)]
      rw [List.getLast?_map, hih]
      simp [hlen]

theorem maskFilter_cons {β : Type} (v : β) (vs : List β) (b : Bool) (bs : List Bool) :
    SkeletonCalculatorType1.maskFilter (v :: vs) (b :: bs) =
      (if b then [v] else []) ++ SkeletonCalculatorType1.maskFilter vs bs := by
  rw [SkeletonCalculatorType1.maskFilter, SkeletonCalculatorType1.maskFilter,
      List.zip_cons_cons]
  cases b with
  | false => simp
  | true => simp

theorem maskFilter_head {β : Type} (vs : List β) (bs : List Bool)
    (hb : bs.getD 0 false = true) (hv : vs ≠ []) :
    (SkeletonCalculatorType1.maskFilter vs bs).head? = vs.head? := by
  cases vs with
  | nil => exact absurd rfl hv
  | cons v vs2 =>
    cases bs with
    | nil => simp at hb
    | cons b bs2 =>
      have : b = true := hb
      rw [maskFilter_cons, this]
      simp

theorem maskFilter_getLast {β : Type} (vs : List β) (bs : List Bool)
    (hlen : vs.length = bs.length) (hne : vs ≠ [])
    (hb : bs.getD (bs.length - 1) false = true) :
    (SkeletonCalculatorType1.maskFilter vs bs).getLast? = vs.getLast? := by
  induction vs generalizing bs with
  | nil => exact absurd rfl hne
  | cons v vs2 ih =>
    cases bs with
    | nil => simp at hlen
    | cons b bs2 =>
      cases vs2 with
      | nil =>
        cases bs2 with
        | nil =>
          have : b = true := hb
          rw [maskFilter_cons, this]
          rfl
        | cons b3 bs3 => simp at hlen
      | cons v2 vs3 =>
        cases bs2 with
        | nil => simp at hlen
        | cons b3 bs3 =>
          have hlen2 : (v2 :: vs3).length = (b3 :: bs3).length := by
            simpa using hlen
          have hb2 : (b3 :: bs3).getD ((b3 :: bs3).length - 1) false = true := by
            have h1 : (b :: b3 :: bs3).length - 1 = (b3 :: bs3).length := by simp
            rw [h1] at hb
            have h2 : (b3 :: bs3).length = bs3.length + 1 := by simp
            rw [h2] at hb
            rw [h2]
            simpa using hb
          have hih := ih (b3 :: bs3) hlen2 (by simp) hb2
          rw [maskFilter_cons]
          have hne2 : SkeletonCalculatorType1.maskFilter (v2 :: vs3) (b3 :: bs3) ≠ [] := by
            intro hcon
            rw [hcon] at hih
            have : (v2 :: vs3).getLast? = none := hih.symm
            simp at this
          rw [List.getLast?_append_of_ne_nil _ hne2, hih]
          simp

theorem findTrue_maskFilter_length (mask : List Bool) (m : List ℤ)
    (hlen : m.length = mask.length) :
    (findTrue mask).length = (SkeletonCalculatorType1.maskFilter m mask).length := by
  induction mask generalizing m with
  | nil =>
    cases m with
    | nil => rfl
    | cons v vs => simp at hlen
  | cons b bs ih =>
    cases m with
    | nil => simp at hlen
    | cons v vs =>
      rw [findTrue_cons, maskFilter_cons]
      rw [List.length_append, List.length_append, List.length_map]
      rw [ih vs (by simpa using hlen)]
      cases b <;> simp

theorem mapM_ok_length {ε α β : Type} (f : α → Except ε β) (l : List α) (l2 : List β)
    (h : l.mapM f = Except.ok l2) : l2.length = l.length := by
  induction l generalizing l2 with
  | nil =>
    rw [List.mapM_nil] at h
    cases h
    rfl
  | cons x xs ih =>
    rw [List.mapM_cons] at h
    rcases bind_eq_ok h with ⟨y, _, h⟩
    rcases bind_eq_ok h with ⟨ys, hys, h⟩
    cases h
    simp [ih ys hys]

theorem mapM_ok_head? {ε α β : Type} (f : α → Except ε β) (l : List α) (l2 : List β)
    (h : l.mapM f = Except.ok l2) (a : α) (ha : l.head? = some a) :
    ∃ b, f a = Except.ok b ∧ l2.head? = some b := by
  cases l with
  | nil => simp at ha
  | cons x xs =>
    have hax : a = x := by
      rw [List.head?_cons] at ha
      exact (Option.some.inj ha).symm
    subst hax
    rw [List.mapM_cons] at h
    rcases bind_eq_ok h with ⟨y, hy, h⟩
    rcases bind_eq_ok h with ⟨ys, _, h⟩
    cases h
    exact ⟨y, hy, rfl⟩

theorem mapM_ok_getLast? {ε α β : Type} (f : α → Except ε β) (l : List α) (l2 : List β)
    (h : l.mapM f = Except.ok l2) (a : α) (ha : l.getLast? = some a) :
    ∃ b, f a = Except.ok b ∧ l2.getLast? = some b := by
  induction l generalizing l2 with
  | nil => simp at ha
  | cons x xs ih =>
    rw [List.mapM_cons] at h
    rcases bind_eq_ok h with ⟨y, hy, h⟩
    rcases bind_eq_ok h with ⟨ys, hys, h⟩
    cases h
    cases xs with
    | nil =>
      rw [List.mapM_nil] at hys
      cases hys
      have hax : a = x := by
        rw [List.getLast?_singleton] at ha
        exact (Option.some.inj ha).symm
      subst hax
      exact ⟨y, hy, rfl⟩
    | cons x2 xs2 =>
      have ha2 : (x2 :: xs2).getLast? = some a := by
        rwa [List.getLast?_cons_cons] at ha
      rcases ih ys hys ha2 with ⟨b, hb, hbl⟩
      refine ⟨b, hb, ?_⟩
      have hne : ys ≠ [] := by
        intro hcon
        rw [hcon] at hbl
        simp at hbl
      cases ys with
      | nil => exact absurd rfl hne
      | cons y2 ys2 =>
        rwa [List.getLast?_cons_cons]

theorem zipWith_head? {α β γ : Type} (f : α → β → γ) (a : List α) (b : List β)
    (x : α) (y : β) (hx : a.head? = some x) (hy : b.head? = some y) :
    (List.zipWith f a b).head? = some (f x y) := by
  cases a with
  | nil => simp at hx
  | cons a0 as =>
    cases b with
    | nil => simp at hy
    | cons b0 bs =>
      rw [List.head?_cons] at hx hy
      rw [List.zipWith_cons_cons, List.head?_cons,
          Option.some.inj hx, Option.some.inj hy]

theorem zipWith_getLast? {α β γ : Type} (f : α → β → γ) (a : List α) (b : List β)
    (x : α) (y : β) (hlen : a.length = b.length)
    (hx : a.getLast? = some x) (hy : b.getLast? = some y) :
    (List.zipWith f a b).getLast? = some (f x y) := by
  induction a generalizing b with
  | nil => simp at hx
  | cons a0 as ih =>
    cases b with
    | nil => simp at hy
    | cons b0 bs =>
      cases as with
      | nil =>
        cases bs with
        | nil =>
          rw [List.getLast?_singleton] at hx hy
          rw [List.zipWith_cons_cons, List.zipWith_nil_left, List.getLast?_singleton,
              Option.some.inj hx, Option.some.inj hy]
        | cons b2 bs2 => simp at hlen
      | cons a2 as2 =>
        cases bs with
        | nil => simp at hlen
        | cons b2 bs2 =>
          have hlen2 : (a2 :: as2).length = (b2 :: bs2).length := by simpa using hlen
          have hx2 : (a2 :: as2).getLast? = some x := by
            rwa [List.getLast?_cons_cons] at hx
          have hy2 : (b2 :: bs2).getLast? = some y := by
            rwa [List.getLast?_cons_cons] at hy
          have hih := ih (b2 :: bs2) hlen2 hx2 hy2
          rw [List.zipWith_cons_cons]
          have hne : List.zipWith f (a2 :: as2) (b2 :: bs2) ≠ [] := by
            intro hcon
            rw [hcon] at hih
            simp at hih
          cases hz : List.zipWith f (a2 :: as2) (b2 :: bs2) with
          | nil => exact absurd hz hne
          | cons z zs =>
            rw [hz] at hih
            rwa [List.getLast?_cons_cons]

theorem getD_zero_eq_headD {α : Type} (l : List α) (d : α) :
    l.getD 0 d = l.headD d := by
  cases l <;> rfl

theorem getD_last_eq_getLastD {α : Type} (l : List α) (d : α) (h : l ≠ []) :
    l.getD (l.length - 1) d = l.getLastD d := by
  induction l with
  | nil => exact absurd rfl h
  | cons x t ih =>
    cases t with
    | nil => rfl
    | cons y ys =>
      have h1 : (x :: y :: ys).length - 1 = (y :: ys).length - 1 + 1 := by
        simp
      rw [h1]
      show (y :: ys).getD ((y :: ys).length - 1) d = _
      rw [ih (by simp)]
      rfl


theorem pairWidths_nonneg (a b : List (ℚ × ℚ)) :
    ∀ x ∈ SkeletonCalculatorType1.pairWidths a b, 0 ≤ x := by
  induction a generalizing b with
  | nil =>
    intro x hx
    simp [SkeletonCalculatorType1.pairWidths] at hx
  | cons p as ih =>
    intro x hx
    cases b with
    | nil => simp [SkeletonCalculatorType1.pairWidths] at hx
    | cons q bs =>
      rw [SkeletonCalculatorType1.pairWidths, List.zipWith_cons_cons] at hx
      rcases List.mem_cons.mp hx with h1 | h2
      · rw [h1]
        exact Real.sqrt_nonneg _
      · exact ih bs x h2

theorem head?_of_ne_nil {α : Type} (l : List α) (d : α) (h : l ≠ []) :
    l.head? = some (l.getD 0 d) := by
  cases l with
  | nil => exact absurd rfl h
  | cons x xs => rfl

theorem getLast?_of_ne_nil {α : Type} (l : List α) (d : α) (h : l ≠ []) :
    l.getLast? = some (l.getD (l.length - 1) d) := by
  rw [getD_last_eq_getLastD l d h, List.getLastD_eq_getLast?]
  cases hl : l.getLast? with
  | none =>
    exact absurd (List.getLast?_eq_none_iff.mp hl) h
  | some x => rfl

/-- Structure of a successful `h__updateEndsByWalking` result: the first
retained pair is `(0, 0)`, the last is `(n1 - 1, n2 - 1)` (both forced
regardless of the walks), and the two index lists have equal length. -/
theorem updateEnds_structure (d : ℕ → ℕ → ℚ) (match_I1 : List ℤ)
    (s1 s2 : List (ℚ × ℚ)) (pct : ℚ) (I_1 : List ℕ) (I_2 : List ℤ)
    (hn1 : 2 ≤ s1.length) (hm : match_I1.length = s1.length)
    (hok : SkeletonCalculatorType1.h__updateEndsByWalking d match_I1 s1 s2 pct =
      Except.ok (I_1, I_2)) :
    I_1.head? = some 0 ∧ I_1.getLast? = some (s1.length - 1) ∧
    I_2.head? = some 0 ∧ I_2.getLast? = some ((s2.length : ℤ) - 1) ∧
    I_1.length = I_2.length := by
  rw [SkeletonCalculatorType1.h__updateEndsByWalking] at hok
  rcases bind_eq_ok hok with ⟨fw, hfw, hok⟩
  rcases bind_eq_ok hok with ⟨m1, hm1, hok⟩
  rcases bind_eq_ok hok with ⟨mask1, hmask1, hok⟩
  rcases bind_eq_ok hok with ⟨bw, hbw, hok⟩
  rcases bind_eq_ok hok with ⟨m2, hm2, hok⟩
  rcases bind_eq_ok hok with ⟨mask2, hmask2, hok⟩
  rcases bind_eq_ok hok with ⟨mask4, hmask4, hok⟩
  rcases bind_eq_ok hok with ⟨m3, hm3, hok⟩
  have hI : I_1 = findTrue mask4 ∧
      I_2 = SkeletonCalculatorType1.maskFilter m3 mask4 := by
    have := Except.ok.inj hok
    rw [Prod.mk.injEq] at this
    exact ⟨this.1.symm, this.2.symm⟩
  have hm1len : m1.length = match_I1.length := applyUpdates_length _ _ _ hm1
  have hm2len : m2.length = s1.length := by
    rw [applyUpdates_length _ _ _ hm2, hm1len, hm]
  have hmask1len : mask1.length = match_I1.length := by
    rw [setTrues_length _ _ _ hmask1, List.length_replicate]
  have hmask2len : mask2.length = match_I1.length := by
    rw [setTrues_length _ _ _ hmask2, hmask1len]
  have hmask3len : (SkeletonCalculatorType1.setRangeTrue mask2
      (((s1.length : ℚ) * pct).ceil + 1)
      ((s1.length : ℤ) - ((s1.length : ℚ) * pct).ceil + 1)).length = s1.length := by
    rw [setRangeTrue_length, hmask2len, hm]
  have hmask3pos : 0 < (SkeletonCalculatorType1.setRangeTrue mask2
      (((s1.length : ℚ) * pct).ceil + 1)
      ((s1.length : ℤ) - ((s1.length : ℚ) * pct).ceil + 1)).length := by
    rw [hmask3len]
    omega
  rw [setTrues_zero_neg_one _ hmask3pos] at hmask4
  have hmask4v := (Except.ok.inj hmask4).symm
  have hm2pos : 0 < m2.length := by
    rw [hm2len]
    omega
  rw [applyUpdates_zero_neg_one _ _ _ hm2pos] at hm3
  have hm3v := (Except.ok.inj hm3).symm
  have hmask4len : mask4.length = s1.length := by
    rw [hmask4v, List.length_set, List.length_set, hmask3len]
  have hm3len : m3.length = s1.length := by
    rw [hm3v, List.length_set, List.length_set, hm2len]
  have hmask4_0 : mask4.getD 0 false = true := by
    rw [hmask4v]
    rw [getD_set_ne _ _ _ _ _ (by rw [hmask3len]; omega)]
    rw [getD_set_self _ _ _ _ (by rw [hmask3len]; omega)]
  have hmask4_last : mask4.getD (s1.length - 1) false = true := by
    rw [hmask4v, hmask3len]
    rw [getD_set_self _ _ _ _ (by rw [List.length_set, hmask3len]; omega)]
  have hm3_0 : m3.getD 0 0 = 0 := by
    rw [hm3v]
    rw [getD_set_ne _ _ _ _ _ (by rw [hm2len]; omega)]
    rw [getD_set_self _ _ _ _ (by rw [hm2len]; omega)]
  have hm3_last : m3.getD (s1.length - 1) 0 = (s2.length : ℤ) - 1 := by
    rw [hm3v, hm2len]
    rw [getD_set_self _ _ _ _ (by rw [List.length_set, hm2len]; omega)]
  have hm3ne : m3 ≠ [] := by
    intro hcon
    rw [hcon] at hm3len
    simp at hm3len
    omega
  have hmask4ne : mask4 ≠ [] := by
    intro hcon
    rw [hcon] at hmask4len
    simp at hmask4len
    omega
  refine ⟨?_, ?_, ?_, ?_, ?_⟩
  · rw [hI.1]
    exact findTrue_head mask4 hmask4_0
  · rw [hI.1]
    have := findTrue_getLast mask4 hmask4ne (by rw [hmask4len]; exact hmask4_last)
    rw [this, hmask4len]
  · rw [hI.2]
    rw [maskFilter_head m3 mask4 hmask4_0 hm3ne]
    rw [head?_of_ne_nil m3 0 hm3ne, hm3_0]
  · rw [hI.2]
    rw [maskFilter_getLast m3 mask4 (by rw [hm3len, hmask4len]) hm3ne
      (by rw [hmask4len]; exact hmask4_last)]
    rw [getLast?_of_ne_nil m3 0 hm3ne]
    rw [hm3len, hm3_last]
  · rw [hI.1, hI.2]
    exact findTrue_maskFilter_length mask4 m3 (by rw [hm3len, hmask4len])

theorem maskFilter_length_eq {β γ : Type} (v1 : List β) (v2 : List γ)
    (mask : List Bool) (h1 : v1.length = mask.length) (h2 : v2.length = mask.length) :
    (SkeletonCalculatorType1.maskFilter v1 mask).length =
      (SkeletonCalculatorType1.maskFilter v2 mask).length := by
  induction mask generalizing v1 v2 with
  | nil =>
    cases v1 with
    | nil =>
      cases v2 with
      | nil => rfl
      | cons b bs => simp at h2
    | cons a as => simp at h1
  | cons m ms ih =>
    cases v1 with
    | nil => simp at h1
    | cons a as =>
      cases v2 with
      | nil => simp at h2
      | cons b bs =>
        rw [maskFilter_cons, maskFilter_cons, List.length_append, List.length_append]
        rw [ih as bs (by simpa using h1) (by simpa using h2)]
        cases m <;> simp

theorem two_le_length_of_head_last_ne {α : Type} (l : List α) (x y : α)
    (hh : l.head? = some x) (hl : l.getLast? = some y) (hne : x ≠ y) :
    2 ≤ l.length := by
  cases l with
  | nil => simp at hh
  | cons a t =>
    cases t with
    | nil =>
      rw [List.head?_cons] at hh
      rw [List.getLast?_singleton] at hl
      exact absurd ((Option.some.inj hh).symm.trans (Option.some.inj hl))
        (by exact hne)
    | cons b t2 => simp

theorem ixc_last (n : ℕ) (h : 0 < n) : ixc n ((n : ℤ) - 1) = Except.ok (n - 1) := by
  have hc : (0 : ℤ) ≤ (n : ℤ) - 1 ∧ (n : ℤ) - 1 < (n : ℤ) := by omega
  rw [ixc, if_pos hc]
  congr 1
  omega

theorem xyAt_zero (s : List (ℚ × ℚ)) (h : 0 < s.length) :
    SkeletonCalculatorType1.xyAt s 0 = Except.ok (s.getD 0 (0, 0)) := by
  rw [SkeletonCalculatorType1.xyAt, ixc_zero s.length h, except_ok_bind]
  rfl

theorem xyAt_last (s : List (ℚ × ℚ)) (h : 0 < s.length) :
    SkeletonCalculatorType1.xyAt s ((s.length : ℤ) - 1) =
      Except.ok (s.getD (s.length - 1) (0, 0)) := by
  rw [SkeletonCalculatorType1.xyAt, ixc_last s.length h, except_ok_bind]
  rfl

theorem orderFilterMask_head (I_2 : List ℤ) (hne : I_2 ≠ []) :
    (SkeletonCalculatorType1.orderFilterMask I_2).getD 0 false = true := by
  have hpos : 0 < I_2.length := List.length_pos.mpr hne
  rw [orderFilterMask_getD I_2 0 hpos]
  simp

theorem orderFilterMask_last (I_2 : List ℤ) (hne : I_2 ≠ []) :
    (SkeletonCalculatorType1.orderFilterMask I_2).getD (I_2.length - 1) false = true := by
  have hpos : 0 < I_2.length := List.length_pos.mpr hne
  rw [orderFilterMask_getD I_2 (I_2.length - 1) (by omega)]
  simp

/-- The ordering-repair pass preserves the first and last retained pair
and keeps the two index lists aligned. -/
theorem orderingRepair_ends (I_1 : List ℕ) (I_2 : List ℤ)
    (hlen : I_1.length = I_2.length) (hne : I_2 ≠ []) :
    (SkeletonCalculatorType1.orderingRepair I_1 I_2).1.head? = I_1.head? ∧
    (SkeletonCalculatorType1.orderingRepair I_1 I_2).2.head? = I_2.head? ∧
    (SkeletonCalculatorType1.orderingRepair I_1 I_2).1.getLast? = I_1.getLast? ∧
    (SkeletonCalculatorType1.orderingRepair I_1 I_2).2.getLast? = I_2.getLast? ∧
    (SkeletonCalculatorType1.orderingRepair I_1 I_2).1.length =
      (SkeletonCalculatorType1.orderingRepair I_1 I_2).2.length := by
  have h1ne : I_1 ≠ [] := by
    intro hcon
    rw [hcon] at hlen
    exact hne (List.length_eq_zero.mp hlen.symm)
  have hmlen : (SkeletonCalculatorType1.orderFilterMask I_2).length = I_2.length :=
    SkeletonCalculatorType1.orderFilterMask_length I_2
  have hh := orderFilterMask_head I_2 hne
  have hlast := orderFilterMask_last I_2 hne
  have hlast2 : (SkeletonCalculatorType1.orderFilterMask I_2).getD
      ((SkeletonCalculatorType1.orderFilterMask I_2).length - 1) false = true := by
    rw [hmlen]
    exact hlast
  refine ⟨?_, ?_, ?_, ?_, ?_⟩
  · exact maskFilter_head I_1 _ hh h1ne
  · exact maskFilter_head I_2 _ hh hne
  · exact maskFilter_getLast I_1 _ (by rw [hmlen, hlen]) h1ne hlast2
  · exact maskFilter_getLast I_2 _ (by rw [hmlen]) hne hlast2
  · exact maskFilter_length_eq I_1 I_2 _ (by rw [hmlen, hlen]) (by rw [hmlen])

/-- C3: for every frame whose matched pairs are produced by
`h__updateEndsByWalking` (any candidate matches, any distance matrix, any
walk percentage), the first retained pair after the ordering repair is
`(side1 index 0, side2 index 0)` and the last is
`(side1 last index, side2 last index)`; both survive the repair filter
unconditionally, and consequently the first and last skeleton points
equal the midpoints of `(side1[0], side2[0])` and
`(side1[-1], side2[-1])`. -/
theorem c3_endpoint_pairs_retained (d : ℕ → ℕ → ℚ) (match_I1 : List ℤ)
    (s1 s2 : List (ℚ × ℚ)) (pct : ℚ) (I_1 : List ℕ) (I_2 : List ℤ)
    (hn1 : 2 ≤ s1.length) (hn2 : 1 ≤ s2.length)
    (hm : match_I1.length = s1.length)
    (hok : SkeletonCalculatorType1.h__updateEndsByWalking d match_I1 s1 s2 pct =
      Except.ok (I_1, I_2)) :
    (SkeletonCalculatorType1.orderingRepair I_1 I_2).1.head? = some 0 ∧
    (SkeletonCalculatorType1.orderingRepair I_1 I_2).2.head? = some 0 ∧
    (SkeletonCalculatorType1.orderingRepair I_1 I_2).1.getLast? =
      some (s1.length - 1) ∧
    (SkeletonCalculatorType1.orderingRepair I_1 I_2).2.getLast? =
      some ((s2.length : ℤ) - 1) ∧
    (∀ w skel, SkeletonCalculatorType1.frameFinalize s1 s2 I_1 I_2 =
        Except.ok (w, skel) →
      skel.head? = some (((s1.headD (0, 0)).1 + (s2.headD (0, 0)).1) / 2,
                         ((s1.headD (0, 0)).2 + (s2.headD (0, 0)).2) / 2) ∧
      skel.getLast? = some (((s1.getLastD (0, 0)).1 + (s2.getLastD (0, 0)).1) / 2,
                            ((s1.getLastD (0, 0)).2 + (s2.getLastD (0, 0)).2) / 2)) := by
  obtain ⟨h1h, h1l, h2h, h2l, hIlen⟩ :=
    updateEnds_structure d match_I1 s1 s2 pct I_1 I_2 hn1 hm hok
  have h2ne : I_2 ≠ [] := by
    intro hcon
    rw [hcon] at h2h
    simp at h2h
  obtain ⟨hrh1, hrh2, hrl1, hrl2, hrlen⟩ := orderingRepair_ends I_1 I_2 hIlen h2ne
  have hK1h : (SkeletonCalculatorType1.orderingRepair I_1 I_2).1.head? = some 0 := by
    rw [hrh1, h1h]
  have hK2h : (SkeletonCalculatorType1.orderingRepair I_1 I_2).2.head? = some 0 := by
    rw [hrh2, h2h]
  have hK1l : (SkeletonCalculatorType1.orderingRepair I_1 I_2).1.getLast? =
      some (s1.length - 1) := by
    rw [hrl1, h1l]
  have hK2l : (SkeletonCalculatorType1.orderingRepair I_1 I_2).2.getLast? =
      some ((s2.length : ℤ) - 1) := by
    rw [hrl2, h2l]
  refine ⟨hK1h, hK2h, hK1l, hK2l, ?_⟩
  intro w skel hfin
  rw [SkeletonCalculatorType1.frameFinalize] at hfin
  rcases bind_eq_ok hfin with ⟨b, hb, hfin⟩
  have hws : w = SkeletonCalculatorType1.pairWidths
        ((SkeletonCalculatorType1.orderingRepair I_1 I_2).1.map
          (fun i => s1.getD i (0, 0))) b ∧
      skel = SkeletonCalculatorType1.pairSkeleton
        ((SkeletonCalculatorType1.orderingRepair I_1 I_2).1.map
          (fun i => s1.getD i (0, 0))) b := by
    have := Except.ok.inj hfin
    rw [Prod.mk.injEq] at this
    exact ⟨this.1.symm, this.2.symm⟩
  have hahead : ((SkeletonCalculatorType1.orderingRepair I_1 I_2).1.map
      (fun i => s1.getD i (0, 0))).head? = some (s1.getD 0 (0, 0)) := by
    rw [List.head?_map, hK1h]
    rfl
  have halast : ((SkeletonCalculatorType1.orderingRepair I_1 I_2).1.map
      (fun i => s1.getD i (0, 0))).getLast? = some (s1.getD (s1.length - 1) (0, 0)) := by
    rw [List.getLast?_map, hK1l]
    rfl
  obtain ⟨bh, hbh, hbhead⟩ := mapM_ok_head? _ _ _ hb 0 hK2h
  obtain ⟨bl, hbl, hblast⟩ := mapM_ok_getLast? _ _ _ hb ((s2.length : ℤ) - 1) hK2l
  rw [xyAt_zero s2 (by omega)] at hbh
  rw [xyAt_last s2 (by omega)] at hbl
  have hbh2 : bh = s2.getD 0 (0, 0) := (Except.ok.inj hbh).symm
  have hbl2 : bl = s2.getD (s2.length - 1) (0, 0) := (Except.ok.inj hbl).symm
  have hlen_ab : ((SkeletonCalculatorType1.orderingRepair I_1 I_2).1.map
      (fun i => s1.getD i (0, 0))).length = b.length := by
    rw [List.length_map, mapM_ok_length _ _ _ hb, hrlen]
  constructor
  · rw [hws.2, SkeletonCalculatorType1.pairSkeleton]
    rw [zipWith_head? _ _ _ _ _ hahead hbhead]
    rw [hbh2]
    rw [getD_zero_eq_headD, getD_zero_eq_headD]
  · rw [hws.2, SkeletonCalculatorType1.pairSkeleton]
    rw [zipWith_getLast? _ _ _ _ _ hlen_ab halast hblast]
    rw [hbl2]
    have hs1ne : s1 ≠ [] := by
      intro hcon
      rw [hcon] at hn1
      simp at hn1
    have hs2ne : s2 ≠ [] := by
      intro hcon
      rw [hcon] at hn2
      simp at hn2
    rw [getD_last_eq_getLastD s1 _ hs1ne, getD_last_eq_getLastD s2 _ hs2ne]

/-- Witness for C3: a concrete 14-point frame (all candidate matches 0,
constant distance matrix, 15% walk) on which the endpoint pairs are
verified to survive the repair with the stated indices. -/
theorem c3_witness :
    (SkeletonCalculatorType1.orderingRepair
      [0,1,2,4,5,6,7,8,9,10,11,13] [0,1,2,0,0,0,0,0,0,0,0,13]).1.head? = some 0 ∧
    (SkeletonCalculatorType1.orderingRepair
      [0,1,2,4,5,6,7,8,9,10,11,13] [0,1,2,0,0,0,0,0,0,0,0,13]).2.head? = some 0 ∧
    (SkeletonCalculatorType1.orderingRepair
      [0,1,2,4,5,6,7,8,9,10,11,13] [0,1,2,0,0,0,0,0,0,0,0,13]).1.getLast? =
      some ((List.replicate 14 ((0:ℚ),(0:ℚ))).length - 1) ∧
    (SkeletonCalculatorType1.orderingRepair
      [0,1,2,4,5,6,7,8,9,10,11,13] [0,1,2,0,0,0,0,0,0,0,0,13]).2.getLast? =
      some (((List.replicate 14 ((0:ℚ),(0:ℚ))).length : ℤ) - 1) := by
  have h := c3_endpoint_pairs_retained (fun _ _ => (1 : ℚ)) (List.replicate 14 0)
    (List.replicate 14 ((0:ℚ),(0:ℚ))) (List.replicate 14 ((0:ℚ),(0:ℚ))) (15/100)
    [0,1,2,4,5,6,7,8,9,10,11,13] [0,1,2,0,0,0,0,0,0,0,0,13]
    (by decide) (by decide) (by decide) (by with_unfolding_all rfl)
  exact ⟨h.1, h.2.1, h.2.2.1, h.2.2.2.1⟩

/-- C7: for every frame whose matched pairs come out of
`h__updateEndsByWalking` and whose finalization succeeds, the emitted
width and skeleton sequences have equal length, both equal to the number
of retained matched index pairs, that number is at least 2, and every
width value is nonnegative (each width being a Euclidean distance). -/
theorem c7_skeleton_widths_aligned (d : ℕ → ℕ → ℚ) (match_I1 : List ℤ)
    (s1 s2 : List (ℚ × ℚ)) (pct : ℚ) (I_1 : List ℕ) (I_2 : List ℤ)
    (w : List ℝ) (skel : List (ℚ × ℚ))
    (hn1 : 2 ≤ s1.length)
    (hm : match_I1.length = s1.length)
    (hok : SkeletonCalculatorType1.h__updateEndsByWalking d match_I1 s1 s2 pct =
      Except.ok (I_1, I_2))
    (hfin : SkeletonCalculatorType1.frameFinalize s1 s2 I_1 I_2 =
      Except.ok (w, skel)) :
    w.length = skel.length ∧
    w.length = (SkeletonCalculatorType1.orderingRepair I_1 I_2).1.length ∧
    2 ≤ (SkeletonCalculatorType1.orderingRepair I_1 I_2).1.length ∧
    ∀ x ∈ w, 0 ≤ x := by
  obtain ⟨h1h, h1l, h2h, h2l, hIlen⟩ :=
    updateEnds_structure d match_I1 s1 s2 pct I_1 I_2 hn1 hm hok
  have h2ne : I_2 ≠ [] := by
    intro hcon
    rw [hcon] at h2h
    simp at h2h
  obtain ⟨hrh1, hrh2, hrl1, hrl2, hrlen⟩ := orderingRepair_ends I_1 I_2 hIlen h2ne
  rw [SkeletonCalculatorType1.frameFinalize] at hfin
  rcases bind_eq_ok hfin with ⟨b, hb, hfin⟩
  have hws : w = SkeletonCalculatorType1.pairWidths
        ((SkeletonCalculatorType1.orderingRepair I_1 I_2).1.map
          (fun i => s1.getD i (0, 0))) b ∧
      skel = SkeletonCalculatorType1.pairSkeleton
        ((SkeletonCalculatorType1.orderingRepair I_1 I_2).1.map
          (fun i => s1.getD i (0, 0))) b := by
    have := Except.ok.inj hfin
    rw [Prod.mk.injEq] at this
    exact ⟨this.1.symm, this.2.symm⟩
  have hblen : b.length = (SkeletonCalculatorType1.orderingRepair I_1 I_2).1.length := by
    rw [mapM_ok_length _ _ _ hb, hrlen]
  have hwlen : w.length = (SkeletonCalculatorType1.orderingRepair I_1 I_2).1.length := by
    rw [hws.1, SkeletonCalculatorType1.pairWidths, List.length_zipWith,
      List.length_map, hblen]
    exact Nat.min_self _
  have hslen : skel.length = (SkeletonCalculatorType1.orderingRepair I_1 I_2).1.length := by
    rw [hws.2, SkeletonCalculatorType1.pairSkeleton, List.length_zipWith,
      List.length_map, hblen]
    exact Nat.min_self _
  have htwo : 2 ≤ (SkeletonCalculatorType1.orderingRepair I_1 I_2).1.length := by
    refine two_le_length_of_head_last_ne _ 0 (s1.length - 1) ?_ ?_ ?_
    · rw [hrh1, h1h]
    · rw [hrl1, h1l]
    · omega
  refine ⟨by rw [hwlen, hslen], hwlen, htwo, ?_⟩
  rw [hws.1]
  exact pairWidths_nonneg _ _

/-- Witness for C7: the same concrete 14-point frame as for C3; the
finalization emits 10 aligned nonnegative widths and skeleton points. -/
theorem c7_witness :
    (SkeletonCalculatorType1.pairWidths (List.replicate 10 ((0:ℚ),(0:ℚ)))
      (List.replicate 10 ((0:ℚ),(0:ℚ)))).length =
    (SkeletonCalculatorType1.pairSkeleton (List.replicate 10 ((0:ℚ),(0:ℚ)))
      (List.replicate 10 ((0:ℚ),(0:ℚ)))).length ∧
    (SkeletonCalculatorType1.pairWidths (List.replicate 10 ((0:ℚ),(0:ℚ)))
      (List.replicate 10 ((0:ℚ),(0:ℚ)))).length =
    (SkeletonCalculatorType1.orderingRepair
      [0,1,2,4,5,6,7,8,9,10,11,13] [0,1,2,0,0,0,0,0,0,0,0,13]).1.length ∧
    2 ≤ (SkeletonCalculatorType1.orderingRepair
      [0,1,2,4,5,6,7,8,9,10,11,13] [0,1,2,0,0,0,0,0,0,0,0,13]).1.length ∧
    ∀ x ∈ SkeletonCalculatorType1.pairWidths (List.replicate 10 ((0:ℚ),(0:ℚ)))
      (List.replicate 10 ((0:ℚ),(0:ℚ))), 0 ≤ x := by
  have h := c7_skeleton_widths_aligned (fun _ _ => (1 : ℚ)) (List.replicate 14 0)
    (List.replicate 14 ((0:ℚ),(0:ℚ))) (List.replicate 14 ((0:ℚ),(0:ℚ))) (15/100)
    [0,1,2,4,5,6,7,8,9,10,11,13] [0,1,2,0,0,0,0,0,0,0,0,13]
    (SkeletonCalculatorType1.pairWidths (List.replicate 10 ((0:ℚ),(0:ℚ)))
      (List.replicate 10 ((0:ℚ),(0:ℚ))))
    (SkeletonCalculatorType1.pairSkeleton (List.replicate 10 ((0:ℚ),(0:ℚ)))
      (List.replicate 10 ((0:ℚ),(0:ℚ))))
    (by decide) (by decide) (by with_unfolding_all rfl) (by with_unfolding_all rfl)
  exact h

/-- C2 counterexample: a batch with one frame whose side1 is present (48
constant points, so its smoothing succeeds) but whose side2 is absent.
The loop only tests `s1 is None` (line 590); with side1 present it reads
`s2.shape` (line 601), which raises on an absent side2, so the call
errors instead of emitting a missing entry and continuing: the claim
fails for side2-absent frames. -/
theorem c2_counterexample :
    SkeletonCalculatorType1.compute_skeleton_and_widths
      (fun _ _ => Except.ok ())
      [some (List.replicate 48 (0:ℚ), List.replicate 48 (0:ℚ))] [none] =
      Except.error () := by
  with_unfolding_all rfl

/-- C2: (amended) a frame with absent side1 yields a missing output entry,
leaves both caller-side entries untouched, raises nothing, and the rest of
the batch proceeds exactly as without it; but a frame with side1 present
(and smoothable) and side2 absent raises, aborting the whole batch. -/
theorem c2_missing_side_handling {γ : Type}
    (rest : SkeletonCalculatorType1.Side → SkeletonCalculatorType1.Side →
      Except Unit γ)
    (hvs hds : List (Option SkeletonCalculatorType1.Side))
    (d : Option SkeletonCalculatorType1.Side)
    (s1 s1f : SkeletonCalculatorType1.Side)
    (hs : SkeletonCalculatorType1.smoothSide s1 = Except.ok s1f) :
    SkeletonCalculatorType1.compute_skeleton_and_widths rest
      (none :: hvs) (d :: hds) =
      (SkeletonCalculatorType1.compute_skeleton_and_widths rest hvs hds).map
        (fun r => (none :: r.1, none :: r.2.1, d :: r.2.2)) ∧
    SkeletonCalculatorType1.compute_skeleton_and_widths rest
      (some s1 :: hvs) (none :: hds) = Except.error () := by
  constructor
  · cases h : SkeletonCalculatorType1.compute_skeleton_and_widths rest hvs hds <;>
      simp [SkeletonCalculatorType1.compute_skeleton_and_widths,
        SkeletonCalculatorType1.processFrame, h, Except.map, bind, Except.bind]
  · simp [SkeletonCalculatorType1.compute_skeleton_and_widths,
      SkeletonCalculatorType1.processFrame, hs, bind, Except.bind]

/-- Witness for C2: the amended theorem at a concrete one-frame batch
(48 constant points per row, whose smoothing is the identity). -/
theorem c2_witness :
    SkeletonCalculatorType1.compute_skeleton_and_widths
      (fun _ _ => Except.ok ())
      (none :: ([] : List (Option SkeletonCalculatorType1.Side))) [none] =
      (SkeletonCalculatorType1.compute_skeleton_and_widths
        (fun _ _ => Except.ok ())
        ([] : List (Option SkeletonCalculatorType1.Side)) []).map
        (fun r => (none :: r.1, none :: r.2.1, none :: r.2.2)) ∧
    SkeletonCalculatorType1.compute_skeleton_and_widths
      (fun _ _ => Except.ok ())
      (some (List.replicate 48 (0:ℚ), List.replicate 48 (0:ℚ)) ::
        ([] : List (Option SkeletonCalculatorType1.Side))) (none :: []) =
      Except.error () :=
  c2_missing_side_handling (fun _ _ => Except.ok ()) [] [] none
    (List.replicate 48 (0:ℚ), List.replicate 48 (0:ℚ))
    (List.replicate 48 (0:ℚ), List.replicate 48 (0:ℚ))
    (by with_unfolding_all rfl)

/-- C9 counterexample: a one-frame batch whose present sides hold 48
constant points per coordinate row. The code does overwrite the rows with
their Savitzky-Golay smoothed values (lines 596-603), but a local
polynomial fit reproduces constant data exactly, so the caller-visible
contour entries after the call are equal to what was passed in — the
claim that the data of every present frame "differs from what was passed
in" fails. -/
theorem c9_counterexample :
    SkeletonCalculatorType1.compute_skeleton_and_widths
      (fun _ _ => Except.ok ())
      [some (List.replicate 48 (0:ℚ), List.replicate 48 (0:ℚ))]
      [some (List.replicate 48 (0:ℚ), List.replicate 48 (0:ℚ))] =
      Except.ok ([some ()],
        [some (List.replicate 48 (0:ℚ), List.replicate 48 (0:ℚ))],
        [some (List.replicate 48 (0:ℚ), List.replicate 48 (0:ℚ))]) := by
  with_unfolding_all rfl

/-- C9: (amended) for every frame with both sides present (and
smoothable), the caller-visible side entries after the call are exactly
the Savitzky-Golay smoothed rows — the mutation happens, though the
smoothed values need not differ from the input — while a frame with
absent side1 leaves both of its caller-side entries untouched. -/
theorem c9_amended_inplace_smoothing {γ : Type}
    (rest : SkeletonCalculatorType1.Side → SkeletonCalculatorType1.Side →
      Except Unit γ)
    (s1 s2 s1f s2f : SkeletonCalculatorType1.Side) (out : γ)
    (h1 : SkeletonCalculatorType1.smoothSide s1 = Except.ok s1f)
    (h2 : SkeletonCalculatorType1.smoothSide s2 = Except.ok s2f)
    (hr : rest s1f s2f = Except.ok out)
    (hvs hds : List (Option SkeletonCalculatorType1.Side))
    (os : List (Option γ)) (hvf hdf : List (Option SkeletonCalculatorType1.Side))
    (ht : SkeletonCalculatorType1.compute_skeleton_and_widths rest hvs hds =
      Except.ok (os, hvf, hdf)) :
    SkeletonCalculatorType1.compute_skeleton_and_widths rest
      (some s1 :: hvs) (some s2 :: hds) =
      Except.ok (some out :: os, some s1f :: hvf, some s2f :: hdf) ∧
    SkeletonCalculatorType1.compute_skeleton_and_widths rest
      (none :: hvs) (some s2 :: hds) =
      Except.ok (none :: os, none :: hvf, some s2 :: hdf) := by
  constructor <;>
    simp [SkeletonCalculatorType1.compute_skeleton_and_widths,
      SkeletonCalculatorType1.processFrame, h1, h2, hr, ht, bind, Except.bind,
      pure, Except.pure]

/-- Witness for C9: the amended theorem at a concrete one-frame batch of
present constant sides, whose smoothed rows equal the input rows. -/
theorem c9_witness :
    SkeletonCalculatorType1.compute_skeleton_and_widths
      (fun _ _ => Except.ok ())
      (some (List.replicate 48 (0:ℚ), List.replicate 48 (0:ℚ)) ::
        ([] : List (Option SkeletonCalculatorType1.Side)))
      (some (List.replicate 48 (0:ℚ), List.replicate 48 (0:ℚ)) :: []) =
      Except.ok ([some ()],
        [some (List.replicate 48 (0:ℚ), List.replicate 48 (0:ℚ))],
        [some (List.replicate 48 (0:ℚ), List.replicate 48 (0:ℚ))]) ∧
    SkeletonCalculatorType1.compute_skeleton_and_widths
      (fun _ _ => Except.ok ())
      (none :: ([] : List (Option SkeletonCalculatorType1.Side)))
      (some (List.replicate 48 (0:ℚ), List.replicate 48 (0:ℚ)) :: []) =
      Except.ok ([none], [none],
        [some (List.replicate 48 (0:ℚ), List.replicate 48 (0:ℚ))]) :=
  c9_amended_inplace_smoothing (fun _ _ => Except.ok ())
    (List.replicate 48 (0:ℚ), List.replicate 48 (0:ℚ))
    (List.replicate 48 (0:ℚ), List.replicate 48 (0:ℚ))
    (List.replicate 48 (0:ℚ), List.replicate 48 (0:ℚ))
    (List.replicate 48 (0:ℚ), List.replicate 48 (0:ℚ)) ()
    (by with_unfolding_all rfl) (by with_unfolding_all rfl) rfl
    [] [] [] [] [] rfl
